import Mathlib

/-!
Verification of the core of the `ldapserver` package: the per-connection
dispatch loop (`client.serve`), the close protocol (`client.close`), the
request registry (`client.requestCancel` with `client.cancelMessageID` and
`client.ProcessRequestMessage`), and the response writer
(`responseWriterImpl.Write`).

The Go code is embedded shallowly:

* the Go channel primitives keep their runtime semantics (`close` of a nil
  or already-closed channel panics, sending on a closed channel panics,
  receiving from a nil channel blocks forever);
* the Go map `requestCancel` becomes an association list with the same
  lookup/insert/delete/clear behaviour; `context.CancelFunc` values become
  opaque numeric tokens;
* each goroutine of a session becomes a list of events (its trace), and a
  run of the session is an interleaving of the task traces constrained by
  the synchronisation primitives the code uses (`sync.WaitGroup`, channel
  close, goroutine spawn order).
-/

namespace LdapServer

/-- Protocol operations, mirroring the cases the dispatch switch in
`client.serve` distinguishes plus the response shapes the code and the
examples construct. The payload types follow the goldap message package:
an AbandonRequest is its target message id, an ExtendedRequest carries a
request name, an ExtendedResponse carries a result code, a diagnostic
message and a response name. `rawOp` stands for any other operation. -/
inductive ProtocolOp where
  | abandonRequest (target : Int)
  | unbindRequest
  | extendedRequest (requestName : String)
  | extendedResponse (resultCode : Nat) (diagnosticMessage : String) (responseName : String)
  | bindResponse (resultCode : Nat)
  | searchResultEntry (objectName : String)
  | rawOp (payload : List Nat)
deriving DecidableEq

/-- An LDAP message: BER SEQUENCE of a message id and a protocol op. -/
structure LDAPMessage where
  messageID : Int
  protocolOp : ProtocolOp
deriving DecidableEq

/-- Modelled from the spec: `LDAPResultUnwillingToPerform` = 53 (the
constants file of the repository is not among the sources). -/
def LDAPResultUnwillingToPerform : Nat := 53

/-- Modelled from the spec: OID for Notice of Disconnection =
`1.3.6.1.4.1.1466.20036`. -/
def NoticeOfDisconnection : String := "1.3.6.1.4.1.1466.20036"

/-- Modelled from the spec: OID for StartTLS = `1.3.6.1.4.1.1466.20037`
(named `NoticeOfStartTLS` in the code). -/
def NoticeOfStartTLS : String := "1.3.6.1.4.1.1466.20037"

/-- Modelled from the spec: the response constructor used by the
shutdown watch, `NewExtendedResponse(code)` builds an ExtendedResponse
with the given result code and empty diagnostic message and name. -/
def NewExtendedResponse (resultCode : Nat) : ProtocolOp :=
  ProtocolOp.extendedResponse resultCode "" ""

/-- Modelled from the spec: `SetDiagnosticMessage` of the goldap package
replaces the diagnostic message of an ExtendedResponse. -/
def SetDiagnosticMessage (po : ProtocolOp) (msg : String) : ProtocolOp :=
  match po with
  | ProtocolOp.extendedResponse code _ name => ProtocolOp.extendedResponse code msg name
  | other => other

/-- Modelled from the spec: `SetResponseName` of the goldap package
replaces the response name of an ExtendedResponse. -/
def SetResponseName (po : ProtocolOp) (name : String) : ProtocolOp :=
  match po with
  | ProtocolOp.extendedResponse code msg _ => ProtocolOp.extendedResponse code msg name
  | other => other

/-- Modelled from the spec: `ldap.NewLDAPMessageWithProtocolOp` wraps a
protocol op in an LDAP message whose message id is the zero value 0
(0 is the id of unsolicited notifications). -/
def NewLDAPMessageWithProtocolOp (po : ProtocolOp) : LDAPMessage :=
  { messageID := 0, protocolOp := po }

/-- Modelled from the spec: `SetMessageID` stamps a message id. -/
def SetMessageID (m : LDAPMessage) (id : Int) : LDAPMessage :=
  { m with messageID := id }

/-- The message the shutdown-watch goroutine builds (client.go, shutdown
branch of the select): an ExtendedResponse with result code 53,
diagnostic message "server is about to stop" and the
Notice-of-Disconnection OID, wrapped with message id 0. -/
def noticeOfDisconnectionMessage : LDAPMessage :=
  NewLDAPMessageWithProtocolOp
    (SetResponseName
      (SetDiagnosticMessage (NewExtendedResponse LDAPResultUnwillingToPerform)
        "server is about to stop")
      NoticeOfDisconnection)

/-! ## The request registry

`client.requestCancel` is a Go `map[int]context.CancelFunc`, guarded by the
client mutex. It is embedded as an association list (cancel functions are
opaque tokens); `none` models the nil map before its lazy creation. -/

/-- Association-list core of the registry. -/
abbrev RegMap := List (Int × Nat)

/-- The registry field: `none` is the Go nil map. -/
abbrev Registry := Option RegMap

/-- Go map lookup on the association list. -/
def mapLookup : RegMap → Int → Option Nat
  | [], _ => none
  | e :: rest, k => if e.1 = k then some e.2 else mapLookup rest k

/-- Go `delete(m, k)`. -/
def mapErase : RegMap → Int → RegMap
  | [], _ => []
  | e :: rest, k => if e.1 = k then mapErase rest k else e :: mapErase rest k

/-- Go map assignment `m[k] = h` (overwrites any previous entry). -/
def mapInsert (m : RegMap) (k : Int) (h : Nat) : RegMap :=
  (k, h) :: mapErase m k

/-- Lookup through the possibly-nil registry (reading a nil Go map
yields the zero value, i.e. a miss). -/
def regLookup (reg : Registry) (k : Int) : Option Nat :=
  match reg with
  | none => none
  | some m => mapLookup m k

/-- The registered message ids. -/
def regKeys (reg : Registry) : List Int :=
  match reg with
  | none => []
  | some m => m.map (fun e => e.1)

/-- Registration step of `client.ProcessRequestMessage`: create the map
lazily if nil, then store the cancel handle under the message id. -/
def registerCancel (reg : Registry) (k : Int) (h : Nat) : Registry :=
  match reg with
  | none => some (mapInsert [] k h)
  | some m => some (mapInsert m k h)

/-- Deferred deregistration of `client.ProcessRequestMessage`:
`delete(c.requestCancel, messageID)` when the handler returns
(a delete on a nil map is a no-op). -/
def deregisterOnReturn (reg : Registry) (k : Int) : Registry :=
  match reg with
  | none => none
  | some m => some (mapErase m k)

/-- `client.cancelMessageID`: under the lock, look the id up; if present,
invoke the cancel handle (returned as `some handle`) and delete the
entry; otherwise leave the registry unchanged. -/
def cancelMessageID (reg : Registry) (k : Int) : Registry × Option Nat :=
  match regLookup reg k with
  | some h => (deregisterOnReturn reg k, some h)
  | none => (reg, none)

/-- The cancel-and-clear step of `client.close`: invoke every registered
cancel handle (in registry order), then `clear` the map. -/
def closeCancelAll (reg : Registry) : Registry × List Nat :=
  match reg with
  | none => (none, [])
  | some m => (some [], m.map (fun e => e.2))

/-! ## Go channels and the session state

Only the facts of Go channels the claims depend on are modelled: a
channel field is nil until `make` assigns it, `close` of a nil or closed
channel panics, sending on a closed channel panics, sending on or
receiving from a nil channel blocks forever. -/

/-- Status of a channel-typed field of the client struct. -/
inductive ChanSt where
  | nilChan
  | openChan
  | closedChan
deriving DecidableEq

/-- Outcome of running a straight-line piece of Go code. -/
inductive GoOutcome where
  | ok
  | panicked (msg : String)
  | blockedForever
deriving DecidableEq

/-- Go `close(ch)`. -/
def closeChan : ChanSt → Except String ChanSt
  | ChanSt.nilChan => Except.error "close of nil channel"
  | ChanSt.closedChan => Except.error "close of closed channel"
  | ChanSt.openChan => Except.ok ChanSt.closedChan

/-- The channel-and-registry state of one client session. -/
structure CState where
  closing : ChanSt
  chanOut : ChanSt
  writeDone : ChanSt
  registry : Registry
  socketOpen : Bool

/-- Events of a session run. The `tid` payloads identify the task that
performs the event (0 is the shutdown-watch goroutine, `k+1` the handler
of the `k`-th dispatched message); `seq` numbers the messages one task
sends on the Outbound Queue. -/
inductive Ev where
  | shutdownSignal
  | closeClosing
  | readDeadlineClose
  | readDeadlineWatch
  | cancelCall (handle : Nat)
  | clearRegistry
  | wgAdd (tid : Nat)
  | wgDone (tid : Nat)
  | wgWait
  | closeChanOut
  | sendOut (m : LDAPMessage) (tid : Nat) (seq : Nat)
  | writeSock (m : LDAPMessage) (tid : Nat) (seq : Nat)
  | closeWriteDone
  | waitWriteDone
  | closeSocket
  | srvWgDone
  | registerEv (id : Int) (tid : Nat)
  | deregisterEv (id : Int) (tid : Nat)
  | serveBegin (id : Int) (tid : Nat)
  | serveEnd (id : Int) (tid : Nat)
  | dispatchBegin (k : Nat)
  | abandonHandled (target : Int)
  | unbindReceived
  | watchExit
deriving DecidableEq

/-- `client.close()`, line by line: close the closing channel, set a
read deadline to force the reader awake, cancel every registered request
and clear the registry, wait on the handler join counter, close the
Outbound Queue, wait for the write-complete signal, close the socket,
release the server join counter. The returned list is the sequence of
actions performed before the code panics or blocks (if it does). -/
def closeRun (st : CState) : List Ev × GoOutcome × CState :=
  match closeChan st.closing with
  | Except.error e => ([], GoOutcome.panicked e, st)
  | Except.ok cl =>
    let (reg2, handles) := closeCancelAll st.registry
    let evs1 := [Ev.closeClosing, Ev.readDeadlineClose]
      ++ handles.map Ev.cancelCall ++ [Ev.clearRegistry, Ev.wgWait]
    let st1 : CState :=
      { st with closing := cl, registry := reg2 }
    match closeChan st.chanOut with
    | Except.error e => (evs1, GoOutcome.panicked e, st1)
    | Except.ok co =>
      let st2 : CState := { st1 with chanOut := co }
      match st.writeDone with
      | ChanSt.nilChan =>
        (evs1 ++ [Ev.closeChanOut], GoOutcome.blockedForever, st2)
      | _ =>
        (evs1 ++ [Ev.closeChanOut, Ev.waitWriteDone, Ev.closeSocket, Ev.srvWgDone],
          GoOutcome.ok, { st2 with socketOpen := false })

/-- The session state `client.serve` reaches when the
connection-construction callback returns no handler: `c.closing` has
been made, but `c.chanOut` and `c.writeDone` were never created and no
request was registered; the deferred `c.close()` then runs on it. -/
def nilHandlerState : CState :=
  { closing := ChanSt.openChan, chanOut := ChanSt.nilChan,
    writeDone := ChanSt.nilChan, registry := none, socketOpen := true }

/-- The wrapping step of `responseWriterImpl.Write`: a fresh LDAP
message around the protocol op, stamped with the message id of the writer. -/
def responseWriterWrap (mid : Int) (po : ProtocolOp) : LDAPMessage :=
  SetMessageID (NewLDAPMessageWithProtocolOp po) mid

/-- `responseWriterImpl.Write` against the Outbound Queue: wrap the op,
stamp the message id of the writer, send on `chanOut`. The queue contents are
carried to observe the effect of the call. -/
def writeOnQueue (st : ChanSt) (queued : List LDAPMessage) (mid : Int) (po : ProtocolOp) :
    GoOutcome × List LDAPMessage :=
  match st with
  | ChanSt.openChan => (GoOutcome.ok, queued ++ [responseWriterWrap mid po])
  | ChanSt.closedChan => (GoOutcome.panicked "send on closed channel", queued)
  | ChanSt.nilChan => (GoOutcome.blockedForever, queued)

/-! ## The dispatch switch, state level

`client.serve` reads a message and switches on its protocol op:
AbandonRequest is handled in place through `cancelMessageID` and never
answered; UnbindRequest exits the loop; an ExtendedRequest whose request
name is the StartTLS OID runs `ProcessRequestMessage` inline on the
dispatch goroutine; everything else is spawned as a goroutine. -/

/-- Whether the dispatch loop continues or exits after a message. -/
inductive DispatchAction where
  | continueLoop
  | exitLoop
deriving DecidableEq

/-- What one iteration of the dispatch switch did. -/
structure StepResult where
  registry : Registry
  cancelled : Option Nat
  responses : List LDAPMessage
  wgAdds : Nat
  spawnsTask : Bool
  ranInline : Bool
  action : DispatchAction
deriving DecidableEq

/-- One iteration of the dispatch switch of `client.serve`, at the level
of the registry and the Outbound Queue. `handlerTook` gives the
responses the handler of the embedder writes when it is run inline, and
`newHandle` is the cancel token the inline `ProcessRequestMessage`
would register while the handler runs. -/
def dispatchStep (handlerTook : LDAPMessage → List ProtocolOp) (newHandle : Nat)
    (reg : Registry) (m : LDAPMessage) : StepResult :=
  match m.protocolOp with
  | ProtocolOp.abandonRequest t =>
    let r := cancelMessageID reg t
    { registry := r.1, cancelled := r.2, responses := [], wgAdds := 0,
      spawnsTask := false, ranInline := false, action := DispatchAction.continueLoop }
  | ProtocolOp.unbindRequest =>
    { registry := reg, cancelled := none, responses := [], wgAdds := 0,
      spawnsTask := false, ranInline := false, action := DispatchAction.exitLoop }
  | ProtocolOp.extendedRequest name =>
    if name = NoticeOfStartTLS then
      { registry :=
          deregisterOnReturn (registerCancel reg m.messageID newHandle) m.messageID,
        cancelled := none,
        responses := (handlerTook m).map (responseWriterWrap m.messageID),
        wgAdds := 1, spawnsTask := false, ranInline := true,
        action := DispatchAction.continueLoop }
    else
      { registry := reg, cancelled := none, responses := [], wgAdds := 1,
        spawnsTask := true, ranInline := false, action := DispatchAction.continueLoop }
  | _ =>
    { registry := reg, cancelled := none, responses := [], wgAdds := 1,
      spawnsTask := true, ranInline := false, action := DispatchAction.continueLoop }

/-! ## Task traces

Each goroutine of a session becomes a list of events. -/

/-- Trace of one execution of `client.ProcessRequestMessage` by task
`tid`: register the cancel handle under the message id, run the
handler (which writes `resp` through the response writer, each write
stamped with the message id of the request), then the deferred steps in LIFO
order: deregister, cancel the own context, release the join counter. -/
def processRequestTrace (tid : Nat) (m : LDAPMessage) (resp : List ProtocolOp) : List Ev :=
  [Ev.registerEv m.messageID tid, Ev.serveBegin m.messageID tid]
    ++ resp.enum.map (fun p => Ev.sendOut (responseWriterWrap m.messageID p.2) tid p.1)
    ++ [Ev.serveEnd m.messageID tid, Ev.deregisterEv m.messageID tid, Ev.wgDone tid]

/-- The four ways the dispatch switch of `client.serve` treats a
message: Abandon handling, Unbind (loop exit), inline processing (an
ExtendedRequest whose request name is the StartTLS OID), or spawning a
handler goroutine (every other operation). -/
inductive MsgKind where
  | abandonK (target : Int)
  | unbindK
  | inlineK
  | spawnK
deriving DecidableEq

/-- Classification performed by the dispatch switch. -/
def msgKind (m : LDAPMessage) : MsgKind :=
  match m.protocolOp with
  | ProtocolOp.abandonRequest t => MsgKind.abandonK t
  | ProtocolOp.unbindRequest => MsgKind.unbindK
  | ProtocolOp.extendedRequest name =>
    if name = NoticeOfStartTLS then MsgKind.inlineK else MsgKind.spawnK
  | _ => MsgKind.spawnK

/-- The dispatch loop of `client.serve` over the list of messages the
reader delivers, starting at iteration `k`. Returns the trace of the
dispatch goroutine (up to loop exit) and the traces of the handler
goroutines it spawned. Task ids: the handler of iteration `k` is task
`k + 1`. An empty remainder models the reader returning an error, which
also exits the loop. -/
def loopRun (hres : LDAPMessage → List ProtocolOp) :
    List LDAPMessage → Nat → List Ev × List (List Ev)
  | [], _ => ([], [])
  | m :: rest, k =>
    match msgKind m with
    | MsgKind.abandonK t =>
      let r := loopRun hres rest (k + 1)
      (Ev.dispatchBegin k :: Ev.abandonHandled t :: r.1, r.2)
    | MsgKind.unbindK =>
      ([Ev.dispatchBegin k, Ev.unbindReceived], [])
    | MsgKind.inlineK =>
      let r := loopRun hres rest (k + 1)
      (Ev.dispatchBegin k :: Ev.wgAdd (k + 1)
          :: (processRequestTrace (k + 1) m (hres m) ++ r.1), r.2)
    | MsgKind.spawnK =>
      let r := loopRun hres rest (k + 1)
      (Ev.dispatchBegin k :: Ev.wgAdd (k + 1) :: r.1,
        processRequestTrace (k + 1) m (hres m) :: r.2)

/-- The task ids whose handler join-counter increment the dispatch loop
performs (one per message that is neither an Abandon nor an Unbind,
stopping at the first Unbind). -/
def loopTids : List LDAPMessage → Nat → List Nat
  | [], _ => []
  | m :: rest, k =>
    match msgKind m with
    | MsgKind.abandonK _ => loopTids rest (k + 1)
    | MsgKind.unbindK => []
    | _ => (k + 1) :: loopTids rest (k + 1)

/-- Trace of `client.close()` in the non-panicking case, `handles` being
the cancel handles found registered when it runs. -/
def closeEvents (handles : List Nat) : List Ev :=
  [Ev.closeClosing, Ev.readDeadlineClose]
    ++ handles.map Ev.cancelCall
    ++ [Ev.clearRegistry, Ev.wgWait, Ev.closeChanOut, Ev.waitWriteDone,
        Ev.closeSocket, Ev.srvWgDone]

/-- Trace of the shutdown branch of the shutdown-watch goroutine (task
0): increment the join counter, enqueue the Notice of Disconnection,
release the counter, set the read deadline, return. -/
def watchShutdownTrace : List Ev :=
  [Ev.wgAdd 0, Ev.sendOut noticeOfDisconnectionMessage 0 0, Ev.wgDone 0,
    Ev.readDeadlineWatch]

/-- Trace of the closing branch of the shutdown-watch goroutine. -/
def watchClosingTrace : List Ev :=
  [Ev.watchExit]

/-- A session scenario: the messages the reader delivers, the responses
the handler of the embedder writes per message, the registry snapshot the
close protocol finds (a schedule-dependent input), whether `Shutdown()`
is invoked, and which branch of its select the shutdown watch takes. -/
structure SessionSys where
  msgs : List LDAPMessage
  hres : LDAPMessage → List ProtocolOp
  closeHandles : List Nat
  shutdownInvoked : Bool
  watchShutdownBranch : Bool

/-- Trace of the dispatch goroutine: the loop followed by the deferred
`close()`. -/
def dispatcherTrace (sys : SessionSys) : List Ev :=
  (loopRun sys.hres sys.msgs 0).1 ++ closeEvents sys.closeHandles

/-- Traces of the handler goroutines the dispatch loop spawns. -/
def handlerTraces (sys : SessionSys) : List (List Ev) :=
  (loopRun sys.hres sys.msgs 0).2

/-- Trace of the shutdown-watch goroutine. -/
def watchTrace (sys : SessionSys) : List Ev :=
  if sys.watchShutdownBranch then watchShutdownTrace else watchClosingTrace

/-- Trace of the server side: the one-shot shutdown signal, if invoked. -/
def serverTrace (sys : SessionSys) : List Ev :=
  if sys.shutdownInvoked then [Ev.shutdownSignal] else []

/-- All task traces of a scenario; `wtr` is the trace of the writer
goroutine, whose content depends on the schedule. -/
def sysTasks (sys : SessionSys) (wtr : List Ev) : List (List Ev) :=
  serverTrace sys :: dispatcherTrace sys :: watchTrace sys :: wtr :: handlerTraces sys

/-! ## Runs of a session

A run is a merge of the task traces, one event at a time, according to a
schedule (the index of the task that moves next). Admissibility then
constrains the merge by the synchronisation the code uses. -/

/-- Merge the task traces `ts` along a schedule. `some σ` means the
schedule consumes every trace completely and yields the run `σ`. -/
def mergeTasks : List (List Ev) → List Nat → Option (List Ev)
  | ts, [] => if ts.all List.isEmpty then some [] else none
  | ts, i :: sched =>
    match ts[i]? with
    | some (e :: t) => (mergeTasks (ts.set i t) sched).map (fun σ => e :: σ)
    | _ => none

/-- The event at position `i` of a run (an arbitrary default out of
range; every use is guarded by a bound). -/
def evAt (σ : List Ev) (i : Nat) : Ev :=
  σ.getD i Ev.clearRegistry

/-- Event `a` occurs at some position strictly before an occurrence of
event `b`. -/
def OccB (a b : Ev) (σ : List Ev) : Prop :=
  ∃ (i j : Nat), i < j ∧ σ[i]? = some a ∧ σ[j]? = some b

theorem lt_length_of_getElemQ {σ : List Ev} {i : Nat} {e : Ev}
    (h : σ[i]? = some e) : i < σ.length := by
  by_contra hc
  rw [List.getElem?_eq_none (Nat.le_of_not_lt hc)] at h
  exact Option.noConfusion h

theorem evAt_of_getElemQ {σ : List Ev} {i : Nat} {e : Ev}
    (h : σ[i]? = some e) : evAt σ i = e := by
  unfold evAt
  rw [List.getD_eq_getElem?_getD, h]
  rfl

theorem getElemQ_of_evAt {σ : List Ev} {i : Nat} {e : Ev}
    (hlt : i < σ.length) (h : evAt σ i = e) : σ[i]? = some e := by
  unfold evAt at h
  rw [List.getD_eq_getElem?_getD, List.getElem?_eq_getElem hlt] at h
  rw [List.getElem?_eq_getElem hlt]
  simpa using h

theorem mem_of_getElemQ {σ : List Ev} {i : Nat} {e : Ev}
    (h : σ[i]? = some e) : e ∈ σ := by
  have hlt : i < σ.length := lt_length_of_getElemQ h
  rw [List.getElem?_eq_getElem hlt] at h
  have : σ[i] = e := by simpa using h
  rw [← this]
  exact List.getElem_mem hlt

theorem getElemQ_of_mem {σ : List Ev} {e : Ev} (h : e ∈ σ) :
    ∃ (i : Nat), σ[i]? = some e := by
  induction σ with
  | nil => cases h
  | cons x t ih =>
    rcases List.mem_cons.mp h with rfl | h2
    · exact ⟨0, by simp⟩
    · obtain ⟨i, hi⟩ := ih h2
      exact ⟨i + 1, by simpa using hi⟩

/-- Every task trace is a subsequence of the merged run. -/
theorem mergeTasks_sub {ts : List (List Ev)} {sched : List Nat} {σ : List Ev}
    (h : mergeTasks ts sched = some σ) :
    ∀ j, (hj : j < ts.length) → ts[j].Sublist σ := by
  induction sched generalizing ts σ with
  | nil =>
    intro j hj
    unfold mergeTasks at h
    split at h
    · rename_i hall
      obtain rfl : σ = [] := by simpa using h.symm
      have : ts[j].isEmpty = true := by
        exact List.all_eq_true.mp hall _ (List.getElem_mem hj)
      simpa [List.isEmpty_iff] using this
    · exact Option.noConfusion h
  | cons i sched ih =>
    intro j hj
    unfold mergeTasks at h
    rcases hti : ts[i]? with _ | ti
    · simp [hti] at h
    rcases ti with _ | ⟨e, t⟩
    · simp [hti] at h
    simp only [hti] at h
    rcases hσ : mergeTasks (ts.set i t) sched with _ | σ2
    · simp [hσ] at h
    simp only [hσ, Option.map_some'] at h
    obtain rfl : σ = e :: σ2 := by simpa using h.symm
    have hilen : i < ts.length := by
      by_contra hc
      rw [List.getElem?_eq_none (Nat.le_of_not_lt hc)] at hti
      exact Option.noConfusion hti
    have hset : j < (ts.set i t).length := by simpa using hj
    by_cases hji : j = i
    · subst hji
      have h1 : ts[j] = e :: t := by
        have := hti
        rw [List.getElem?_eq_getElem hj] at this
        simpa using this
      have h2 : (ts.set j t)[j] = t := by
        simp
      have h3 := ih hσ j hset
      rw [h2] at h3
      rw [h1]
      exact List.Sublist.cons₂ e h3
    · have h2 : (ts.set i t)[j] = ts[j] := by
        rw [List.getElem_set]
        simp [Ne.symm hji]
      have h3 := ih hσ j hset
      rw [h2] at h3
      exact List.Sublist.cons e h3

theorem sum_map_count_set (e : Ev) (ts : List (List Ev)) (i : Nat) (t : List Ev)
    (h : i < ts.length) :
    ((ts.set i t).map (List.count e)).sum + List.count e ts[i]
      = (ts.map (List.count e)).sum + List.count e t := by
  induction ts generalizing i with
  | nil => cases h
  | cons a ts ih =>
    cases i with
    | zero => simp [List.set]; omega
    | succ n =>
      have hn : n < ts.length := by simpa using Nat.lt_of_succ_lt_succ h
      have := ih n hn
      simp only [List.set, List.map, List.sum_cons, List.getElem_cons_succ]
      omega

/-- The merged run carries exactly the events of the traces, counted
with multiplicity. -/
theorem mergeTasks_count {ts : List (List Ev)} {sched : List Nat} {σ : List Ev}
    (h : mergeTasks ts sched = some σ) (e : Ev) :
    σ.count e = (ts.map (List.count e)).sum := by
  induction sched generalizing ts σ with
  | nil =>
    unfold mergeTasks at h
    split at h
    · rename_i hall
      obtain rfl : σ = [] := by simpa using h.symm
      have : ∀ l ∈ ts, List.count e l = 0 := by
        intro l hl
        have : l.isEmpty = true := List.all_eq_true.mp hall _ hl
        rw [List.isEmpty_iff] at this
        simp [this]
      simp only [List.count_nil]
      symm
      rw [List.sum_eq_zero]
      intro x hx
      obtain ⟨l, hl, rfl⟩ := List.mem_map.mp hx
      exact this l hl
    · exact Option.noConfusion h
  | cons i sched ih =>
    unfold mergeTasks at h
    rcases hti : ts[i]? with _ | ti
    · simp [hti] at h
    rcases ti with _ | ⟨e0, t⟩
    · simp [hti] at h
    simp only [hti] at h
    rcases hσ : mergeTasks (ts.set i t) sched with _ | σ2
    · simp [hσ] at h
    simp only [hσ, Option.map_some'] at h
    obtain rfl : σ = e0 :: σ2 := by simpa using h.symm
    have hilen : i < ts.length := by
      by_contra hc
      rw [List.getElem?_eq_none (Nat.le_of_not_lt hc)] at hti
      exact Option.noConfusion hti
    have hts : ts[i] = e0 :: t := by
      have := hti
      rw [List.getElem?_eq_getElem hilen] at this
      simpa using this
    have hsum := sum_map_count_set e ts i t hilen
    rw [hts] at hsum
    have hcnt : (e0 :: t).count e = t.count e + (if e0 = e then 1 else 0) := by
      by_cases he : e0 = e <;> simp [List.count_cons, he]
    have hgoal : (e0 :: σ2).count e = σ2.count e + (if e0 = e then 1 else 0) := by
      by_cases he : e0 = e <;> simp [List.count_cons, he]
    rw [hgoal, ih hσ]
    omega

/-- A two-element subsequence gives ordered positions. -/
theorem occB_of_pair_sub {a b : Ev} {σ : List Ev}
    (h : [a, b].Sublist σ) : OccB a b σ := by
  induction σ with
  | nil => cases h
  | cons x t ih =>
    cases h with
    | cons _ h2 =>
      obtain ⟨i, j, hij, hi, hj⟩ := ih h2
      exact ⟨i + 1, j + 1, by omega, by simpa using hi, by simpa using hj⟩
    | cons₂ _ h2 =>
      have hb : b ∈ t := List.singleton_sublist.mp h2
      obtain ⟨j, hj⟩ := getElemQ_of_mem hb
      exact ⟨0, j + 1, by omega, by simp, by simpa using hj⟩

/-- Members of consecutive chunks of a subsequence occur in order. -/
theorem occB_of_append_sub {p q : List Ev} {a b : Ev} {σ : List Ev}
    (hsub : (p ++ q).Sublist σ) (ha : a ∈ p) (hb : b ∈ q) : OccB a b σ := by
  have h1 : [a].Sublist p := List.singleton_sublist.mpr ha
  have h2 : [b].Sublist q := List.singleton_sublist.mpr hb
  have : ([a] ++ [b]).Sublist (p ++ q) := List.Sublist.append h1 h2
  exact occB_of_pair_sub (List.Sublist.trans this hsub)

/-- Two positions of the same event with multiplicity one coincide. -/
theorem getElemQ_eq_of_count_one {σ : List Ev} {e : Ev} {i j : Nat}
    (hcount : σ.count e = 1) (hi : σ[i]? = some e) (hj : σ[j]? = some e) :
    i = j := by
  by_contra hne
  have two_le : ∀ {p q : Nat}, p < q → σ[p]? = some e → σ[q]? = some e →
      2 ≤ σ.count e := by
    intro p q hpq hp hq
    have hqlen : q < σ.length := lt_length_of_getElemQ hq
    have hsplit : σ = σ.take (p + 1) ++ σ.drop (p + 1) :=
      (List.take_append_drop (p + 1) σ).symm
    have hc : σ.count e = (σ.take (p + 1)).count e + (σ.drop (p + 1)).count e := by
      conv_lhs => rw [hsplit]
      exact List.count_append e _ _
    have hmem1 : e ∈ σ.take (p + 1) := by
      have hq1 : (σ.take (p + 1))[p]? = σ[p]? := by
        rw [List.getElem?_take]
        simp
      exact mem_of_getElemQ (by rw [hq1]; exact hp)
    have hmem2 : e ∈ σ.drop (p + 1) := by
      have hq2 : (σ.drop (p + 1))[q - (p + 1)]? = σ[(p + 1) + (q - (p + 1))]? :=
        List.getElem?_drop σ (p + 1) (q - (p + 1))
      have harith : (p + 1) + (q - (p + 1)) = q := by omega
      rw [harith] at hq2
      exact mem_of_getElemQ (by rw [hq2]; exact hq)
    have h1 : 0 < (σ.take (p + 1)).count e := List.count_pos_iff.mpr hmem1
    have h2 : 0 < (σ.drop (p + 1)).count e := List.count_pos_iff.mpr hmem2
    omega
  rcases Nat.lt_or_ge i j with hlt | hge
  · have := two_le hlt hi hj
    omega
  · have hlt2 : j < i := by omega
    have := two_le hlt2 hj hi
    omega

/-- With multiplicity one on both events, any pair of occurrences is in
the order some pair of occurrences is in. -/
theorem lt_of_occB_count_one {σ : List Ev} {a b : Ev} {i j : Nat}
    (hocc : OccB a b σ) (hca : σ.count a = 1) (hcb : σ.count b = 1)
    (hi : σ[i]? = some a) (hj : σ[j]? = some b) : i < j := by
  obtain ⟨p, q, hpq, hp, hq⟩ := hocc
  have := getElemQ_eq_of_count_one hca hi hp
  have := getElemQ_eq_of_count_one hcb hj hq
  omega

/-! ## Admissibility constraints

Each constraint states the guarantee of a synchronisation primitive the
code uses, as a property of positions of the run. -/

/-- Shape tests on events. -/
def isWgAddB : Ev → Bool
  | Ev.wgAdd _ => true
  | _ => false

def isWgDoneB : Ev → Bool
  | Ev.wgDone _ => true
  | _ => false

def isSendOutB : Ev → Bool
  | Ev.sendOut _ _ _ => true
  | _ => false

def isWriteSockB : Ev → Bool
  | Ev.writeSock _ _ _ => true
  | _ => false

def isRegisterB : Ev → Bool
  | Ev.registerEv _ _ => true
  | _ => false

/-- The write the writer task performs for a send. -/
def sendToWrite : Ev → Ev
  | Ev.sendOut m t s => Ev.writeSock m t s
  | e => e

/-- The send behind a write of the writer task. -/
def writeToSend : Ev → Ev
  | Ev.writeSock m t s => Ev.sendOut m t s
  | e => e

/-- The task id carried by a registration event. -/
def registerTid : Ev → Nat
  | Ev.registerEv _ t => t
  | _ => 0

/-- `sync.WaitGroup`: `Wait` returns when the counter is zero, so at the
moment it returns the increments seen so far balance the decrements. -/
def WgZeroAtWait (σ : List Ev) : Prop :=
  ∀ i, i < σ.length → evAt σ i = Ev.wgWait →
    (σ.take i).countP isWgAddB = (σ.take i).countP isWgDoneB

/-- Panic freedom at the Outbound Queue, an ASSUMPTION and not a
guarantee: every send on the queue precedes the close of the queue. Go
does not guarantee this ordering - a send attempted after the close
panics - so this constraint restricts attention to the runs in which no
such panic occurs. It is part of `AdmissibleRun` but deliberately not of
`WeakAdmissibleRun`, and no conclusion about delivery before closure is
drawn from it. -/
def SendsBeforeQueueClose (σ : List Ev) : Prop :=
  ∀ i, i < σ.length → ∀ j, j < σ.length →
    isSendOutB (evAt σ i) = true → evAt σ j = Ev.closeChanOut → i < j

/-- The writer receives a message only after it was sent. -/
def RecvAfterSend (σ : List Ev) : Prop :=
  ∀ j, j < σ.length → isWriteSockB (evAt σ j) = true →
    ∃ i, i < j ∧ evAt σ i = writeToSend (evAt σ j)

/-- The writer drains the queue completely: every sent message is
eventually written. -/
def SendsDrained (σ : List Ev) : Prop :=
  ∀ i, i < σ.length → isSendOutB (evAt σ i) = true →
    ∃ j, j < σ.length ∧ evAt σ j = sendToWrite (evAt σ i)

/-- The receive on `writeDone` in `close()` completes only after the
writer closed `writeDone`. -/
def WaitAfterWriteDoneClosed (σ : List Ev) : Prop :=
  ∀ j, j < σ.length → evAt σ j = Ev.waitWriteDone →
    ∃ i, i < j ∧ evAt σ i = Ev.closeWriteDone

/-- The writer leaves its range loop, hence closes `writeDone`, only
after the Outbound Queue was closed. -/
def WriteDoneAfterQueueClose (σ : List Ev) : Prop :=
  ∀ j, j < σ.length → evAt σ j = Ev.closeWriteDone →
    ∃ i, i < j ∧ evAt σ i = Ev.closeChanOut

/-- A handler goroutine starts (its first action is its registration)
only after the dispatcher performed `wg.Add(1)` and spawned it. -/
def SpawnAfterAdd (σ : List Ev) : Prop :=
  ∀ j, j < σ.length → isRegisterB (evAt σ j) = true →
    ∃ i, i < j ∧ evAt σ i = Ev.wgAdd (registerTid (evAt σ j))

/-- The shutdown branch of the watch select fires only once the server
has emitted the shutdown signal. -/
def WatchShutdownAfterSignal (sys : SessionSys) (σ : List Ev) : Prop :=
  sys.watchShutdownBranch = true →
    ∀ j, j < σ.length → evAt σ j = Ev.wgAdd 0 →
      ∃ i, i < j ∧ evAt σ i = Ev.shutdownSignal

/-- The closing branch of the watch select fires only once the session
has emitted the closing signal. -/
def WatchClosingAfterClosing (sys : SessionSys) (σ : List Ev) : Prop :=
  sys.watchShutdownBranch = false →
    ∀ j, j < σ.length → evAt σ j = Ev.watchExit →
      ∃ i, i < j ∧ evAt σ i = Ev.closeClosing

/-- The writer trace: the socket writes it performs, then the close of
`writeDone` as it exits. -/
def WriterShape (wtr : List Ev) : Prop :=
  ∃ ws, wtr = ws ++ [Ev.closeWriteDone] ∧ ∀ e ∈ ws, isWriteSockB e = true

/-- An admissible, panic-free, complete run of a session scenario: an
interleaving of the task traces (for some writer trace and schedule)
satisfying every synchronisation constraint. -/
def AdmissibleRun (sys : SessionSys) (σ : List Ev) : Prop :=
  ∃ wtr sched, WriterShape wtr ∧ mergeTasks (sysTasks sys wtr) sched = some σ
    ∧ WgZeroAtWait σ ∧ SendsBeforeQueueClose σ ∧ RecvAfterSend σ
    ∧ SendsDrained σ ∧ WaitAfterWriteDoneClosed σ ∧ WriteDoneAfterQueueClose σ
    ∧ SpawnAfterAdd σ ∧ WatchShutdownAfterSignal sys σ
    ∧ WatchClosingAfterClosing sys σ

/-- The unbuffered Outbound Queue, guarded form: a send that completes
before the queue closes was received by the writer, which writes every
message it receives before leaving its range loop. Unlike
`SendsDrained` this promises nothing about a send placed after the
close (in the code such a send panics and delivers nothing), so it is a
genuine guarantee of the channel mechanics. -/
def EarlySendsDrained (σ : List Ev) : Prop :=
  ∀ i, i < σ.length → isSendOutB (evAt σ i) = true →
    (∀ c, c < σ.length → evAt σ c = Ev.closeChanOut → i < c) →
    ∃ j, j < σ.length ∧ evAt σ j = sendToWrite (evAt σ i)

/-- A complete interleaving constrained only by the synchronisation the
code genuinely provides: WaitGroup balance, spawn and select ordering,
channel receive/close ordering and the guarded drain. Unlike
`AdmissibleRun` it does NOT assume `SendsBeforeQueueClose`, so it also
admits the racy interleavings in which a send lands only after the
queue closed (in the code that execution panics at the send). -/
def WeakAdmissibleRun (sys : SessionSys) (σ : List Ev) : Prop :=
  ∃ wtr sched, WriterShape wtr ∧ mergeTasks (sysTasks sys wtr) sched = some σ
    ∧ WgZeroAtWait σ ∧ RecvAfterSend σ
    ∧ EarlySendsDrained σ ∧ WaitAfterWriteDoneClosed σ ∧ WriteDoneAfterQueueClose σ
    ∧ SpawnAfterAdd σ ∧ WatchShutdownAfterSignal sys σ
    ∧ WatchClosingAfterClosing sys σ

/-! ## Registry lemmas -/

theorem mapLookup_mapErase_self (m : RegMap) (k : Int) :
    mapLookup (mapErase m k) k = none := by
  induction m with
  | nil => rfl
  | cons e rest ih =>
    by_cases he : e.1 = k <;> simp [mapErase, he, mapLookup, ih]

theorem not_mem_mapErase_self (m : RegMap) (k : Int) (x : Nat) :
    (k, x) ∉ mapErase m k := by
  induction m with
  | nil => simp [mapErase]
  | cons e rest ih =>
    by_cases he : e.1 = k
    · simpa [mapErase, he] using ih
    · intro hmem
      rcases List.mem_cons.mp (by simpa [mapErase, he] using hmem) with heq | htail
      · exact he (by rw [← heq])
      · exact ih htail

theorem regLookup_registerCancel_self (reg : Registry) (k : Int) (h : Nat) :
    regLookup (registerCancel reg k h) k = some h := by
  cases reg <;> simp [registerCancel, regLookup, mapInsert, mapLookup]

theorem regLookup_deregister_self (reg : Registry) (k : Int) :
    regLookup (deregisterOnReturn reg k) k = none := by
  cases reg <;> simp [deregisterOnReturn, regLookup, mapLookup_mapErase_self]

/-! ## Claim C3: Abandon handling -/

/-- C3. A received AbandonRequest with target `t` is handled entirely by
`cancelMessageID`: when `t` is registered, its cancellation handle is
invoked and its entry removed; when it is not, the registry is
unchanged; in both cases the dispatcher registers nothing, spawns
nothing, enqueues no response, and continues the loop. -/
theorem c3_abandon_dispatch (hres : LDAPMessage → List ProtocolOp) (hnew : Nat)
    (reg : Registry) (m : LDAPMessage) (t : Int)
    (hm : m.protocolOp = ProtocolOp.abandonRequest t) :
    (∀ h, regLookup reg t = some h →
      (dispatchStep hres hnew reg m).cancelled = some h
        ∧ (dispatchStep hres hnew reg m).registry = deregisterOnReturn reg t
        ∧ regLookup (dispatchStep hres hnew reg m).registry t = none)
    ∧ (regLookup reg t = none →
      (dispatchStep hres hnew reg m).registry = reg
        ∧ (dispatchStep hres hnew reg m).cancelled = none)
    ∧ (dispatchStep hres hnew reg m).responses = []
    ∧ (dispatchStep hres hnew reg m).wgAdds = 0
    ∧ (dispatchStep hres hnew reg m).spawnsTask = false
    ∧ (dispatchStep hres hnew reg m).action = DispatchAction.continueLoop := by
  refine ⟨?_, ?_, ?_, ?_, ?_, ?_⟩
  · intro h hh
    simp [dispatchStep, hm, cancelMessageID, hh, regLookup_deregister_self]
  · intro hh
    simp [dispatchStep, hm, cancelMessageID, hh]
  all_goals
    rcases hl : regLookup reg t with _ | h <;>
      simp [dispatchStep, hm, cancelMessageID, hl]

/-- C3 witness: a concrete registered target and a concrete miss. -/
theorem c3_abandon_dispatch_witness :
    (∀ h, regLookup (some [(5, 7)]) 5 = some h →
      (dispatchStep (fun _ => []) 0 (some [(5, 7)])
          { messageID := 9, protocolOp := ProtocolOp.abandonRequest 5 }).cancelled = some h
        ∧ (dispatchStep (fun _ => []) 0 (some [(5, 7)])
            { messageID := 9, protocolOp := ProtocolOp.abandonRequest 5 }).registry
          = deregisterOnReturn (some [(5, 7)]) 5
        ∧ regLookup (dispatchStep (fun _ => []) 0 (some [(5, 7)])
            { messageID := 9, protocolOp := ProtocolOp.abandonRequest 5 }).registry 5 = none)
    ∧ (regLookup (some [(5, 7)]) 5 = none →
      (dispatchStep (fun _ => []) 0 (some [(5, 7)])
          { messageID := 9, protocolOp := ProtocolOp.abandonRequest 5 }).registry = some [(5, 7)]
        ∧ (dispatchStep (fun _ => []) 0 (some [(5, 7)])
            { messageID := 9, protocolOp := ProtocolOp.abandonRequest 5 }).cancelled = none)
    ∧ (dispatchStep (fun _ => []) 0 (some [(5, 7)])
        { messageID := 9, protocolOp := ProtocolOp.abandonRequest 5 }).responses = []
    ∧ (dispatchStep (fun _ => []) 0 (some [(5, 7)])
        { messageID := 9, protocolOp := ProtocolOp.abandonRequest 5 }).wgAdds = 0
    ∧ (dispatchStep (fun _ => []) 0 (some [(5, 7)])
        { messageID := 9, protocolOp := ProtocolOp.abandonRequest 5 }).spawnsTask = false
    ∧ (dispatchStep (fun _ => []) 0 (some [(5, 7)])
        { messageID := 9, protocolOp := ProtocolOp.abandonRequest 5 }).action
      = DispatchAction.continueLoop :=
  c3_abandon_dispatch (fun _ => []) 0 (some [(5, 7)])
    { messageID := 9, protocolOp := ProtocolOp.abandonRequest 5 } 5 rfl

/-! ## Claim C6: declined connection -/

/-- C6. When the connection-construction callback yields no handler,
`serve` returns before creating `chanOut` and `writeDone`; the deferred
`close()` then panics closing the nil Outbound Queue, so the close
protocol never completes: the run stops with a panic, the socket is
never closed, and no socket-close action is performed. (The claim and
the spec say the close protocol completes without error; the code
disagrees.) -/
theorem c6_nil_handler_close_panics :
    (closeRun nilHandlerState).2.1 = GoOutcome.panicked "close of nil channel"
    ∧ (closeRun nilHandlerState).2.2.socketOpen = true
    ∧ Ev.closeSocket ∉ (closeRun nilHandlerState).1 := by
  refine ⟨rfl, rfl, ?_⟩
  simp [closeRun, nilHandlerState, closeChan, closeCancelAll]

/-! ## Claim C7: write after session close -/

/-- C7 counterexample. A handler write after the close protocol closed
the Outbound Queue is not swallowed: at a concrete input the result is
a Go panic ("send on closed channel"), not a silent no-op. -/
theorem c7_counterexample :
    writeOnQueue ChanSt.closedChan [] 1 (ProtocolOp.bindResponse 0)
        = (GoOutcome.panicked "send on closed channel", [])
    ∧ ¬ writeOnQueue ChanSt.closedChan [] 1 (ProtocolOp.bindResponse 0)
        = (GoOutcome.ok, []) := by
  exact ⟨rfl, by simp [writeOnQueue]⟩

/-- C7 as amended: a write through the Response Writer after the
Outbound Queue is closed panics with "send on closed channel" (crashing
the process) and enqueues nothing. -/
theorem c7_write_after_close_panics (q : List LDAPMessage) (mid : Int) (po : ProtocolOp) :
    writeOnQueue ChanSt.closedChan q mid po
      = (GoOutcome.panicked "send on closed channel", q) :=
  rfl

/-! ## Claim C10: duplicate message ids -/

/-- C10. Registering a second request under an already-registered
message id overwrites the first cancellation handle, which is lost; when
either request completes, the deferred delete removes the shared entry,
after which an AbandonRequest for that id finds nothing to cancel and
leaves the registry unchanged. -/
theorem c10_duplicate_message_id (reg : Registry) (id : Int) (hA hB : Nat)
    (hne : hA ≠ hB) :
    regLookup (registerCancel (registerCancel reg id hA) id hB) id = some hB
    ∧ (∀ l, registerCancel (registerCancel reg id hA) id hB = some l → (id, hA) ∉ l)
    ∧ cancelMessageID
        (deregisterOnReturn (registerCancel (registerCancel reg id hA) id hB) id) id
      = (deregisterOnReturn (registerCancel (registerCancel reg id hA) id hB) id, none) := by
  refine ⟨regLookup_registerCancel_self _ id hB, ?_, ?_⟩
  · intro l hl hmem
    have hform : ∃ m, l = (id, hB) :: mapErase m id := by
      rcases reg with _ | m0
      · exact ⟨mapInsert [] id hA, by simpa [registerCancel, mapInsert] using hl.symm⟩
      · exact ⟨mapInsert m0 id hA, by simpa [registerCancel, mapInsert] using hl.symm⟩
    obtain ⟨m, rfl⟩ := hform
    rcases List.mem_cons.mp hmem with heq | htail
    · exact hne (by injection heq with _ h2)
    · exact not_mem_mapErase_self m id hA htail
  · simp [cancelMessageID, regLookup_deregister_self]

/-- C10 witness at a concrete registry. -/
theorem c10_duplicate_message_id_witness :
    regLookup (registerCancel (registerCancel none 5 1) 5 2) 5 = some 2
    ∧ (∀ l, registerCancel (registerCancel none 5 1) 5 2 = some l → ((5 : Int), 1) ∉ l)
    ∧ cancelMessageID (deregisterOnReturn (registerCancel (registerCancel none 5 1) 5 2) 5) 5
      = (deregisterOnReturn (registerCancel (registerCancel none 5 1) 5 2) 5, none) :=
  c10_duplicate_message_id none 5 1 2 (by decide)

/-! ## Shapes and counts of the task traces -/

/-- Events a handler execution (`ProcessRequestMessage`) can produce. -/
def isProcEvB : Ev → Bool
  | Ev.registerEv _ _ => true
  | Ev.serveBegin _ _ => true
  | Ev.sendOut _ _ _ => true
  | Ev.serveEnd _ _ => true
  | Ev.deregisterEv _ _ => true
  | Ev.wgDone _ => true
  | _ => false

/-- Events the dispatch loop can produce (its own steps plus an inline
handler execution). -/
def isLoopEvB (e : Ev) : Bool :=
  match e with
  | Ev.dispatchBegin _ => true
  | Ev.abandonHandled _ => true
  | Ev.unbindReceived => true
  | Ev.wgAdd _ => true
  | _ => isProcEvB e

theorem count_eq_zero_of_shape {l : List Ev} {p : Ev → Bool}
    (hl : ∀ e ∈ l, p e = true) {e : Ev} (he : p e = false) : l.count e = 0 := by
  rw [List.count_eq_zero]
  intro hmem
  have := hl e hmem
  rw [he] at this
  cases this

theorem isLoopEvB_of_proc {e : Ev} (h : isProcEvB e = true) : isLoopEvB e = true := by
  cases e <;> simp_all [isLoopEvB, isProcEvB]

theorem processTrace_shape (tid : Nat) (m : LDAPMessage) (resp : List ProtocolOp) :
    ∀ e ∈ processRequestTrace tid m resp, isProcEvB e = true := by
  intro e he
  simp only [processRequestTrace, List.mem_append, List.mem_cons, List.mem_map,
    List.not_mem_nil, or_false] at he
  rcases he with ((rfl | rfl) | ⟨p, _, rfl⟩) | (rfl | rfl | rfl) <;> rfl

theorem loop_shape (hres : LDAPMessage → List ProtocolOp) :
    ∀ msgs k, ∀ e ∈ (loopRun hres msgs k).1, isLoopEvB e = true := by
  intro msgs
  induction msgs with
  | nil => intro k e he; simp [loopRun] at he
  | cons m rest ih =>
    intro k e he
    cases hop : msgKind m with
    | abandonK t =>
      simp only [loopRun, hop] at he
      rcases List.mem_cons.mp he with rfl | he2
      · rfl
      rcases List.mem_cons.mp he2 with rfl | he3
      · rfl
      exact ih (k + 1) e he3
    | unbindK =>
      simp only [loopRun, hop] at he
      rcases List.mem_cons.mp he with rfl | he2
      · rfl
      rcases List.mem_cons.mp he2 with rfl | he3
      · rfl
      simp at he3
    | inlineK =>
      simp only [loopRun, hop] at he
      rcases List.mem_cons.mp he with rfl | he2
      · rfl
      rcases List.mem_cons.mp he2 with rfl | he3
      · rfl
      rcases List.mem_append.mp he3 with he4 | he5
      · exact isLoopEvB_of_proc (processTrace_shape (k + 1) m (hres m) e he4)
      · exact ih (k + 1) e he5
    | spawnK =>
      simp only [loopRun, hop] at he
      rcases List.mem_cons.mp he with rfl | he2
      · rfl
      rcases List.mem_cons.mp he2 with rfl | he3
      · rfl
      exact ih (k + 1) e he3

theorem tasks_shape (hres : LDAPMessage → List ProtocolOp) :
    ∀ msgs k, ∀ tr ∈ (loopRun hres msgs k).2, ∀ e ∈ tr, isProcEvB e = true := by
  intro msgs
  induction msgs with
  | nil => intro k tr htr; simp [loopRun] at htr
  | cons m rest ih =>
    intro k tr htr e he
    cases hop : msgKind m with
    | abandonK t =>
      simp only [loopRun, hop] at htr
      exact ih (k + 1) tr htr e he
    | unbindK =>
      simp only [loopRun, hop] at htr
      simp at htr
    | inlineK =>
      simp only [loopRun, hop] at htr
      exact ih (k + 1) tr htr e he
    | spawnK =>
      simp only [loopRun, hop] at htr
      rcases List.mem_cons.mp htr with rfl | htr2
      · exact processTrace_shape (k + 1) m (hres m) e he
      · exact ih (k + 1) tr htr2 e he

theorem loopTids_lower (msgs : List LDAPMessage) :
    ∀ k t, t ∈ loopTids msgs k → k + 1 ≤ t := by
  induction msgs with
  | nil => intro k t ht; simp [loopTids] at ht
  | cons m rest ih =>
    intro k t ht
    cases hop : msgKind m with
    | abandonK t0 =>
      simp only [loopTids, hop] at ht
      have := ih (k + 1) t ht
      omega
    | unbindK => simp [loopTids, hop] at ht
    | inlineK =>
      simp only [loopTids, hop] at ht
      rcases List.mem_cons.mp ht with rfl | h2
      · omega
      · have := ih (k + 1) t h2
        omega
    | spawnK =>
      simp only [loopTids, hop] at ht
      rcases List.mem_cons.mp ht with rfl | h2
      · omega
      · have := ih (k + 1) t h2
        omega

theorem loopTids_nodup (msgs : List LDAPMessage) :
    ∀ k, (loopTids msgs k).Nodup := by
  induction msgs with
  | nil => intro k; simp [loopTids]
  | cons m rest ih =>
    intro k
    cases hop : msgKind m with
    | abandonK t0 => simpa [loopTids, hop] using ih (k + 1)
    | unbindK => simp [loopTids, hop]
    | inlineK =>
      simp only [loopTids, hop]
      refine List.nodup_cons.mpr ⟨?_, ih (k + 1)⟩
      intro hmem
      have := loopTids_lower rest (k + 1) (k + 1) hmem
      omega
    | spawnK =>
      simp only [loopTids, hop]
      refine List.nodup_cons.mpr ⟨?_, ih (k + 1)⟩
      intro hmem
      have := loopTids_lower rest (k + 1) (k + 1) hmem
      omega

theorem count_processTrace_eq_zero (tid : Nat) (m : LDAPMessage)
    (resp : List ProtocolOp) {e : Ev} (he : isProcEvB e = false) :
    (processRequestTrace tid m resp).count e = 0 :=
  count_eq_zero_of_shape (processTrace_shape tid m resp) he

theorem count_sends_eq_zero (m : LDAPMessage) (tid : Nat) (resp : List ProtocolOp)
    {e : Ev} (he : isSendOutB e = false) :
    (resp.enum.map
      (fun p => Ev.sendOut (responseWriterWrap m.messageID p.2) tid p.1)).count e = 0 := by
  rw [List.count_eq_zero]
  intro hmem
  obtain ⟨p, _, hp⟩ := List.mem_map.mp hmem
  rw [← hp] at he
  cases he

theorem count_wgDone_processTrace (tid : Nat) (m : LDAPMessage)
    (resp : List ProtocolOp) (t : Nat) :
    (processRequestTrace tid m resp).count (Ev.wgDone t)
      = if t = tid then 1 else 0 := by
  have hsend := count_sends_eq_zero m tid resp (e := Ev.wgDone t) rfl
  by_cases ht : t = tid
  · subst ht
    simp [processRequestTrace, List.count_append, List.count_cons, hsend]
  · simp [processRequestTrace, List.count_append, List.count_cons, hsend, ht]

theorem count_wgAdd_loop (hres : LDAPMessage → List ProtocolOp) :
    ∀ msgs k t, (loopRun hres msgs k).1.count (Ev.wgAdd t)
      = if t ∈ loopTids msgs k then 1 else 0 := by
  intro msgs
  induction msgs with
  | nil => intro k t; simp [loopRun, loopTids]
  | cons m rest ih =>
    intro k t
    cases hop : msgKind m with
    | abandonK t0 =>
      simp [loopRun, loopTids, hop, List.count_cons, ih (k + 1)]
    | unbindK =>
      simp [loopRun, loopTids, hop, List.count_cons]
    | inlineK =>
      have hproc : (processRequestTrace (k + 1) m (hres m)).count (Ev.wgAdd t) = 0 :=
        count_processTrace_eq_zero _ _ _ rfl
      by_cases ht : t = k + 1
      · subst ht
        have hrest : (k + 1) ∉ loopTids rest (k + 1) := by
          intro hm
          have := loopTids_lower rest (k + 1) _ hm
          omega
        simp [loopRun, loopTids, hop, List.count_cons, List.count_append, hproc,
          ih (k + 1), hrest]
      · simp [loopRun, loopTids, hop, List.count_cons, List.count_append, hproc,
          ih (k + 1), ht, Ne.symm ht]
    | spawnK =>
      by_cases ht : t = k + 1
      · subst ht
        have hrest : (k + 1) ∉ loopTids rest (k + 1) := by
          intro hm
          have := loopTids_lower rest (k + 1) _ hm
          omega
        simp [loopRun, loopTids, hop, List.count_cons, ih (k + 1), hrest]
      · simp [loopRun, loopTids, hop, List.count_cons, ih (k + 1), ht, Ne.symm ht]

theorem count_wgDone_total (hres : LDAPMessage → List ProtocolOp) :
    ∀ msgs k t,
      (loopRun hres msgs k).1.count (Ev.wgDone t)
        + ((loopRun hres msgs k).2.map (List.count (Ev.wgDone t))).sum
      = if t ∈ loopTids msgs k then 1 else 0 := by
  intro msgs
  induction msgs with
  | nil => intro k t; simp [loopRun, loopTids]
  | cons m rest ih =>
    intro k t
    cases hop : msgKind m with
    | abandonK t0 =>
      have := ih (k + 1) t
      simp only [loopRun, loopTids, hop, List.count_cons]
      simpa using this
    | unbindK =>
      simp [loopRun, loopTids, hop, List.count_cons]
    | inlineK =>
      have hproc := count_wgDone_processTrace (k + 1) m (hres m) t
      have := ih (k + 1) t
      by_cases ht : t = k + 1
      · subst ht
        have hrest : (k + 1) ∉ loopTids rest (k + 1) := by
          intro hm
          have := loopTids_lower rest (k + 1) _ hm
          omega
        simp only [loopRun, loopTids, hop, List.count_cons, List.count_append] at *
        simp [hproc, hrest] at *
        omega
      · simp only [loopRun, loopTids, hop, List.count_cons, List.count_append] at *
        simp [hproc, ht, Ne.symm ht] at *
        omega
    | spawnK =>
      have hproc := count_wgDone_processTrace (k + 1) m (hres m) t
      have := ih (k + 1) t
      by_cases ht : t = k + 1
      · subst ht
        have hrest : (k + 1) ∉ loopTids rest (k + 1) := by
          intro hm
          have := loopTids_lower rest (k + 1) _ hm
          omega
        simp only [loopRun, loopTids, hop, List.count_cons, List.count_append,
          List.map_cons, List.sum_cons] at *
        simp [hproc, hrest] at *
        omega
      · simp only [loopRun, loopTids, hop, List.count_cons, List.count_append,
          List.map_cons, List.sum_cons] at *
        simp [hproc, ht, Ne.symm ht] at *
        omega

/-! ## Counting machinery -/

theorem sum_map_fn_set (f : List Ev → Nat) (ts : List (List Ev)) (i : Nat)
    (t : List Ev) (h : i < ts.length) :
    ((ts.set i t).map f).sum + f ts[i] = (ts.map f).sum + f t := by
  induction ts generalizing i with
  | nil => cases h
  | cons a ts ih =>
    cases i with
    | zero => simp [List.set]; omega
    | succ n =>
      have hn : n < ts.length := by simpa using Nat.lt_of_succ_lt_succ h
      have := ih n hn
      simp only [List.set, List.map, List.sum_cons, List.getElem_cons_succ]
      omega

/-- The merged run preserves `countP` as well. -/
theorem mergeTasks_countP {ts : List (List Ev)} {sched : List Nat} {σ : List Ev}
    (h : mergeTasks ts sched = some σ) (p : Ev → Bool) :
    σ.countP p = (ts.map (List.countP p)).sum := by
  induction sched generalizing ts σ with
  | nil =>
    unfold mergeTasks at h
    split at h
    · rename_i hall
      obtain rfl : σ = [] := by simpa using h.symm
      simp only [List.countP_nil]
      symm
      rw [List.sum_eq_zero]
      intro x hx
      obtain ⟨l, hl, rfl⟩ := List.mem_map.mp hx
      have : l.isEmpty = true := List.all_eq_true.mp hall _ hl
      rw [List.isEmpty_iff] at this
      simp [this]
    · exact Option.noConfusion h
  | cons i sched ih =>
    unfold mergeTasks at h
    rcases hti : ts[i]? with _ | ti
    · simp [hti] at h
    rcases ti with _ | ⟨e0, t⟩
    · simp [hti] at h
    simp only [hti] at h
    rcases hσ : mergeTasks (ts.set i t) sched with _ | σ2
    · simp [hσ] at h
    simp only [hσ, Option.map_some'] at h
    obtain rfl : σ = e0 :: σ2 := by simpa using h.symm
    have hilen : i < ts.length := by
      by_contra hc
      rw [List.getElem?_eq_none (Nat.le_of_not_lt hc)] at hti
      exact Option.noConfusion hti
    have hts : ts[i] = e0 :: t := by
      have := hti
      rw [List.getElem?_eq_getElem hilen] at this
      simpa using this
    have hsum := sum_map_fn_set (List.countP p) ts i t hilen
    rw [hts] at hsum
    have hcnt : (e0 :: t).countP p = t.countP p + (if p e0 = true then 1 else 0) := by
      by_cases he : p e0 = true <;> simp [List.countP_cons, he]
    have hgoal : (e0 :: σ2).countP p = σ2.countP p + (if p e0 = true then 1 else 0) := by
      by_cases he : p e0 = true <;> simp [List.countP_cons, he]
    rw [hgoal, ih hσ]
    omega

theorem sum_map_add_distrib (tids : List Nat) (f g : Nat → Nat) :
    (tids.map (fun t => f t + g t)).sum = (tids.map f).sum + (tids.map g).sum := by
  induction tids with
  | nil => simp
  | cons a rest ih => simp [ih]; omega

theorem sum_map_indicator_nodup (tids : List Nat) (t0 : Nat)
    (hnd : tids.Nodup) (hmem : t0 ∈ tids) :
    (tids.map (fun t => if t = t0 then 1 else 0)).sum = 1 := by
  induction tids with
  | nil => cases hmem
  | cons a rest ih =>
    rcases List.mem_cons.mp hmem with rfl | hm
    · have hnotin : t0 ∉ rest := (List.nodup_cons.mp hnd).1
      have hz : (rest.map (fun t => if t = t0 then 1 else 0)).sum = 0 := by
        rw [List.sum_eq_zero]
        intro x hx
        obtain ⟨t, ht, rfl⟩ := List.mem_map.mp hx
        have hne2 : t ≠ t0 := by rintro rfl; exact hnotin ht
        simp [hne2]
      simp [hz]
    · have hnd2 := (List.nodup_cons.mp hnd).2
      have hne : a ≠ t0 := by rintro rfl; exact (List.nodup_cons.mp hnd).1 hm
      simp [hne, ih hnd2 hm]

/-- Decompose a `countP` over a list whose satisfying events all come
from an injective family indexed by distinct tids into the per-tid
counts. -/
theorem countP_eq_sum_tids (l : List Ev) (tids : List Nat) (pB : Ev → Bool)
    (mk : Nat → Ev)
    (hshape : ∀ e ∈ l, pB e = true → ∃ t, t ∈ tids ∧ e = mk t)
    (hinj : ∀ a b, mk a = mk b → a = b)
    (hnd : tids.Nodup)
    (hmkp : ∀ t, pB (mk t) = true) :
    l.countP pB = (tids.map (fun t => l.count (mk t))).sum := by
  induction l with
  | nil =>
    simp only [List.countP_nil, List.count_nil]
    symm
    rw [List.sum_eq_zero]
    intro x hx
    obtain ⟨t, _, rfl⟩ := List.mem_map.mp hx
    rfl
  | cons e l2 ih =>
    have ih2 := ih (fun x hx hp => hshape x (List.mem_cons_of_mem e hx) hp)
    by_cases hpe : pB e = true
    · obtain ⟨t0, ht0, rfl⟩ := hshape e (List.mem_cons_self e l2) hpe
      have hL : (mk t0 :: l2).countP pB = l2.countP pB + 1 := by
        simp [List.countP_cons, hpe]
      have hcc : ∀ t, (mk t0 :: l2).count (mk t)
          = l2.count (mk t) + (if t = t0 then 1 else 0) := by
        intro t
        by_cases hteq : t = t0
        · subst hteq; simp [List.count_cons]
        · have : mk t ≠ mk t0 := fun hc => hteq (hinj _ _ hc)
          simp [List.count_cons, this, hteq]
      have hR : (tids.map (fun t => (mk t0 :: l2).count (mk t))).sum
          = (tids.map (fun t => l2.count (mk t))).sum + 1 := by
        have hmapc : tids.map (fun t => (mk t0 :: l2).count (mk t))
            = tids.map (fun t => l2.count (mk t) + (if t = t0 then 1 else 0)) :=
          List.map_congr_left (fun t _ => hcc t)
        rw [hmapc, sum_map_add_distrib, sum_map_indicator_nodup tids t0 hnd ht0]
      rw [hL, hR, ih2]
    · have hL : (e :: l2).countP pB = l2.countP pB := by
        simp [List.countP_cons, hpe]
      have hR : tids.map (fun t => (e :: l2).count (mk t))
          = tids.map (fun t => l2.count (mk t)) := by
        refine List.map_congr_left (fun t _ => ?_)
        have : mk t ≠ e := by
          rintro rfl
          exact hpe (hmkp t)
        simp [List.count_cons, Ne.symm this]
      rw [hL, hR, ih2]

theorem countP_le_of_imp {α : Type} (l : List α) (p q : α → Bool)
    (h : ∀ a ∈ l, p a = true → q a = true) : l.countP p ≤ l.countP q := by
  induction l with
  | nil => simp
  | cons x l2 ih =>
    have ih2 := ih (fun a ha => h a (List.mem_cons_of_mem x ha))
    by_cases hp : p x = true
    · have hq := h x (List.mem_cons_self x l2) hp
      simp [List.countP_cons, hp, hq]
      omega
    · by_cases hq : q x = true <;> simp [List.countP_cons, hp, hq] <;> omega

theorem imp_of_countP_eq {α : Type} (l : List α) (p q : α → Bool)
    (himp : ∀ a ∈ l, p a = true → q a = true)
    (heq : l.countP p = l.countP q) :
    ∀ a ∈ l, q a = true → p a = true := by
  induction l with
  | nil => simp
  | cons x l2 ih =>
    have himp2 : ∀ a ∈ l2, p a = true → q a = true :=
      fun a ha => himp a (List.mem_cons_of_mem x ha)
    have hmono := countP_le_of_imp l2 p q himp2
    intro a ha hq
    by_cases hpx : p x = true
    · have hqx : q x = true := himp x (List.mem_cons_self x l2) hpx
      rw [List.countP_cons, List.countP_cons] at heq
      simp [hpx, hqx] at heq
      rcases List.mem_cons.mp ha with rfl | ha2
      · exact hpx
      · exact ih himp2 heq a ha2 hq
    · by_cases hqx : q x = true
      · exfalso
        rw [List.countP_cons, List.countP_cons] at heq
        simp [hpx, hqx] at heq
        omega
      · rw [List.countP_cons, List.countP_cons] at heq
        simp [hpx, hqx] at heq
        rcases List.mem_cons.mp ha with rfl | ha2
        · exact absurd hq hqx
        · exact ih himp2 heq a ha2 hq

theorem mem_take_of_pos {σ : List Ev} {w i : Nat} {e : Ev}
    (hiw : i < w) (hi : σ[i]? = some e) : e ∈ σ.take w := by
  have hq : (σ.take w)[i]? = σ[i]? := by
    rw [List.getElem?_take]
    simp [hiw]
  exact mem_of_getElemQ (by rw [hq]; exact hi)

theorem pos_of_mem_take {σ : List Ev} {w : Nat} {e : Ev}
    (h : e ∈ σ.take w) : ∃ i, i < w ∧ σ[i]? = some e := by
  obtain ⟨i, hi⟩ := getElemQ_of_mem h
  have hlt : i < (σ.take w).length := lt_length_of_getElemQ hi
  have hiw : i < w := by
    simp [List.length_take] at hlt
    omega
  have hq : (σ.take w)[i]? = σ[i]? := by
    rw [List.getElem?_take]
    simp [hiw]
  exact ⟨i, hiw, by rw [← hq]; exact hi⟩

/-! ## Event counts of a whole run -/

/-- The tids the session join counter sees: the watch task (0) when it
runs its shutdown branch, plus one handler per dispatched request. -/
def sysWgTids (sys : SessionSys) : List Nat :=
  if sys.watchShutdownBranch then 0 :: loopTids sys.msgs 0 else loopTids sys.msgs 0

theorem sysWgTids_nodup (sys : SessionSys) : (sysWgTids sys).Nodup := by
  unfold sysWgTids
  split
  · refine List.nodup_cons.mpr ⟨?_, loopTids_nodup sys.msgs 0⟩
    intro hmem
    have := loopTids_lower sys.msgs 0 0 hmem
    omega
  · exact loopTids_nodup sys.msgs 0

theorem count_cancelMap (handles : List Nat) (e : Ev)
    (he : ∀ h, e ≠ Ev.cancelCall h) :
    (handles.map Ev.cancelCall).count e = 0 := by
  rw [List.count_eq_zero]
  intro hmem
  obtain ⟨h, _, hh⟩ := List.mem_map.mp hmem
  exact he h hh.symm

theorem count_loop_zero (hres : LDAPMessage → List ProtocolOp)
    (msgs : List LDAPMessage) (k : Nat) {e : Ev} (he : isLoopEvB e = false) :
    (loopRun hres msgs k).1.count e = 0 :=
  count_eq_zero_of_shape (loop_shape hres msgs k) he

theorem sum_counts_tasks_zero (hres : LDAPMessage → List ProtocolOp)
    (msgs : List LDAPMessage) (k : Nat) {e : Ev} (he : isProcEvB e = false) :
    ((loopRun hres msgs k).2.map (List.count e)).sum = 0 := by
  rw [List.sum_eq_zero]
  intro x hx
  obtain ⟨tr, htr, rfl⟩ := List.mem_map.mp hx
  exact count_eq_zero_of_shape (tasks_shape hres msgs k tr htr) he

theorem count_writer_zero {wtr : List Ev} (hws : WriterShape wtr) {e : Ev}
    (he : isWriteSockB e = false) (hne : e ≠ Ev.closeWriteDone) :
    wtr.count e = 0 := by
  obtain ⟨ws, rfl, hall⟩ := hws
  rw [List.count_append]
  have h1 : ws.count e = 0 := count_eq_zero_of_shape hall he
  simp [h1, hne]

theorem count_server_zero (sys : SessionSys) {e : Ev}
    (he : e ≠ Ev.shutdownSignal) : (serverTrace sys).count e = 0 := by
  unfold serverTrace
  split <;> simp [he]

/-- Decomposition of a run count into per-task counts. -/
theorem count_sysTasks {sys : SessionSys} {wtr : List Ev} {sched : List Nat}
    {σ : List Ev} (hmerge : mergeTasks (sysTasks sys wtr) sched = some σ) (e : Ev) :
    σ.count e = (serverTrace sys).count e + (dispatcherTrace sys).count e
      + (watchTrace sys).count e + wtr.count e
      + ((handlerTraces sys).map (List.count e)).sum := by
  have := mergeTasks_count hmerge e
  simp only [sysTasks, List.map_cons, List.sum_cons] at this
  omega

/-- Count of a join-counter increment in the whole run. -/
theorem count_sigma_wgAdd {sys : SessionSys} {wtr : List Ev} {sched : List Nat}
    {σ : List Ev} (hmerge : mergeTasks (sysTasks sys wtr) sched = some σ)
    (hws : WriterShape wtr) (t : Nat) :
    σ.count (Ev.wgAdd t) = if t ∈ sysWgTids sys then 1 else 0 := by
  rw [count_sysTasks hmerge]
  have hsrv : (serverTrace sys).count (Ev.wgAdd t) = 0 :=
    count_server_zero sys (by simp)
  have hdisp : (dispatcherTrace sys).count (Ev.wgAdd t)
      = if t ∈ loopTids sys.msgs 0 then 1 else 0 := by
    unfold dispatcherTrace
    rw [List.count_append, count_wgAdd_loop]
    have hce : (closeEvents sys.closeHandles).count (Ev.wgAdd t) = 0 := by
      have hcm := count_cancelMap sys.closeHandles (Ev.wgAdd t) (by intro h2; simp)
      simp [closeEvents, List.count_append, List.count_cons, hcm]
    simp [hce]
  have hwtr : wtr.count (Ev.wgAdd t) = 0 :=
    count_writer_zero hws rfl (by simp)
  have htasks : ((handlerTraces sys).map (List.count (Ev.wgAdd t))).sum = 0 :=
    sum_counts_tasks_zero sys.hres sys.msgs 0 rfl
  have hwatch : (watchTrace sys).count (Ev.wgAdd t)
      = if sys.watchShutdownBranch ∧ t = 0 then 1 else 0 := by
    unfold watchTrace
    by_cases hb : sys.watchShutdownBranch
    · by_cases ht0 : t = 0
      · subst ht0
        simp [hb, watchShutdownTrace, List.count_cons]
      · simp [hb, watchShutdownTrace, List.count_cons, ht0, Ne.symm ht0]
    · simp [hb, watchClosingTrace, List.count_cons]
  rw [hsrv, hdisp, hwatch, hwtr, htasks]
  unfold sysWgTids
  by_cases hb : sys.watchShutdownBranch
  · by_cases ht0 : t = 0
    · subst ht0
      have h0 : (0 : Nat) ∉ loopTids sys.msgs 0 := by
        intro hm
        have := loopTids_lower sys.msgs 0 0 hm
        omega
      simp [hb, h0]
    · by_cases hmem : t ∈ loopTids sys.msgs 0 <;> simp [hb, ht0, hmem]
  · by_cases hmem : t ∈ loopTids sys.msgs 0 <;> simp [hb, hmem]

/-- Count of a join-counter decrement in the whole run. -/
theorem count_sigma_wgDone {sys : SessionSys} {wtr : List Ev} {sched : List Nat}
    {σ : List Ev} (hmerge : mergeTasks (sysTasks sys wtr) sched = some σ)
    (hws : WriterShape wtr) (t : Nat) :
    σ.count (Ev.wgDone t) = if t ∈ sysWgTids sys then 1 else 0 := by
  rw [count_sysTasks hmerge]
  have hsrv : (serverTrace sys).count (Ev.wgDone t) = 0 :=
    count_server_zero sys (by simp)
  have hdisp_tasks := count_wgDone_total sys.hres sys.msgs 0 t
  have hce : (closeEvents sys.closeHandles).count (Ev.wgDone t) = 0 := by
    have hcm := count_cancelMap sys.closeHandles (Ev.wgDone t) (by intro h2; simp)
    simp [closeEvents, List.count_append, List.count_cons, hcm]
  have hdisp : (dispatcherTrace sys).count (Ev.wgDone t)
      = (loopRun sys.hres sys.msgs 0).1.count (Ev.wgDone t) := by
    unfold dispatcherTrace
    rw [List.count_append, hce]
    omega
  have hwtr : wtr.count (Ev.wgDone t) = 0 :=
    count_writer_zero hws rfl (by simp)
  have hwatch : (watchTrace sys).count (Ev.wgDone t)
      = if sys.watchShutdownBranch ∧ t = 0 then 1 else 0 := by
    unfold watchTrace
    by_cases hb : sys.watchShutdownBranch
    · by_cases ht0 : t = 0
      · subst ht0
        simp [hb, watchShutdownTrace, List.count_cons]
      · simp [hb, watchShutdownTrace, List.count_cons, ht0, Ne.symm ht0]
    · simp [hb, watchClosingTrace, List.count_cons]
  rw [hsrv, hdisp, hwatch, hwtr]
  unfold sysWgTids
  unfold handlerTraces
  by_cases hb : sys.watchShutdownBranch
  · by_cases ht0 : t = 0
    · subst ht0
      have h0 : (0 : Nat) ∉ loopTids sys.msgs 0 := by
        intro hm
        have := loopTids_lower sys.msgs 0 0 hm
        omega
      simp [h0, hb] at hdisp_tasks ⊢
      omega
    · by_cases hmem : t ∈ loopTids sys.msgs 0
      · simp [hb, ht0, hmem] at hdisp_tasks ⊢
        omega
      · simp [hb, ht0, hmem] at hdisp_tasks ⊢
        omega
  · by_cases hmem : t ∈ loopTids sys.msgs 0
    · simp [hb, hmem] at hdisp_tasks ⊢
      omega
    · simp [hb, hmem] at hdisp_tasks ⊢
      omega

theorem sublist_cons2 {l σ : List Ev} (a b : Ev) (h : l.Sublist σ) :
    l.Sublist (a :: b :: σ) :=
  h.trans ((List.sublist_cons_self b σ).trans (List.sublist_cons_self a (b :: σ)))

/-- Every handler tid of the loop owns a complete `ProcessRequestMessage`
trace, inlined in the dispatcher trace or spawned as a task. -/
theorem proc_sub_of_mem_loopTids (hres : LDAPMessage → List ProtocolOp) :
    ∀ msgs k t, t ∈ loopTids msgs k →
      ∃ m, (processRequestTrace t m (hres m)).Sublist (loopRun hres msgs k).1
        ∨ processRequestTrace t m (hres m) ∈ (loopRun hres msgs k).2 := by
  intro msgs
  induction msgs with
  | nil => intro k t ht; simp [loopTids] at ht
  | cons m rest ih =>
    intro k t ht
    cases hop : msgKind m with
    | abandonK t0 =>
      simp only [loopTids, hop] at ht
      obtain ⟨m2, hcase⟩ := ih (k + 1) t ht
      refine ⟨m2, ?_⟩
      rcases hcase with hsub | hmem
      · exact Or.inl (by simp only [loopRun, hop]; exact sublist_cons2 _ _ hsub)
      · exact Or.inr (by simp only [loopRun, hop]; exact hmem)
    | unbindK => simp [loopTids, hop] at ht
    | inlineK =>
      simp only [loopTids, hop] at ht
      rcases List.mem_cons.mp ht with rfl | h2
      · refine ⟨m, Or.inl ?_⟩
        simp only [loopRun, hop]
        exact sublist_cons2 _ _ (List.sublist_append_left _ _)
      · obtain ⟨m2, hcase⟩ := ih (k + 1) t h2
        refine ⟨m2, ?_⟩
        rcases hcase with hsub | hmem
        · exact Or.inl (by
            simp only [loopRun, hop]
            exact sublist_cons2 _ _ (hsub.trans (List.sublist_append_right _ _)))
        · exact Or.inr (by simp only [loopRun, hop]; exact hmem)
    | spawnK =>
      simp only [loopTids, hop] at ht
      rcases List.mem_cons.mp ht with rfl | h2
      · exact ⟨m, Or.inr (by simp only [loopRun, hop]; exact List.mem_cons_self _ _)⟩
      · obtain ⟨m2, hcase⟩ := ih (k + 1) t h2
        refine ⟨m2, ?_⟩
        rcases hcase with hsub | hmem
        · exact Or.inl (by simp only [loopRun, hop]; exact sublist_cons2 _ _ hsub)
        · exact Or.inr (by simp only [loopRun, hop]; exact List.mem_cons_of_mem _ hmem)

theorem sub_of_merge_mem {ts : List (List Ev)} {sched : List Nat} {σ : List Ev}
    (hmerge : mergeTasks ts sched = some σ) {tr : List Ev} (htr : tr ∈ ts) :
    tr.Sublist σ := by
  obtain ⟨i, hlt, hEq⟩ := List.mem_iff_getElem.mp htr
  rw [← hEq]
  exact mergeTasks_sub hmerge i hlt

theorem dispatcher_sub {sys : SessionSys} {wtr : List Ev} {sched : List Nat}
    {σ : List Ev} (hmerge : mergeTasks (sysTasks sys wtr) sched = some σ) :
    (dispatcherTrace sys).Sublist σ :=
  sub_of_merge_mem hmerge (by simp [sysTasks])

theorem watch_sub {sys : SessionSys} {wtr : List Ev} {sched : List Nat}
    {σ : List Ev} (hmerge : mergeTasks (sysTasks sys wtr) sched = some σ) :
    (watchTrace sys).Sublist σ :=
  sub_of_merge_mem hmerge (by simp [sysTasks])

theorem writer_sub {sys : SessionSys} {wtr : List Ev} {sched : List Nat}
    {σ : List Ev} (hmerge : mergeTasks (sysTasks sys wtr) sched = some σ) :
    wtr.Sublist σ :=
  sub_of_merge_mem hmerge (by simp [sysTasks])

theorem handler_sub {sys : SessionSys} {wtr : List Ev} {sched : List Nat}
    {σ : List Ev} (hmerge : mergeTasks (sysTasks sys wtr) sched = some σ)
    {tr : List Ev} (htr : tr ∈ handlerTraces sys) :
    tr.Sublist σ :=
  sub_of_merge_mem hmerge (by simp [sysTasks]; exact Or.inr (Or.inr (Or.inr (Or.inr htr))))

theorem count_closeEvents_kit (handles : List Nat) :
    (closeEvents handles).count Ev.wgWait = 1
    ∧ (closeEvents handles).count Ev.closeChanOut = 1
    ∧ (closeEvents handles).count Ev.closeSocket = 1 := by
  have h1 := count_cancelMap handles Ev.wgWait (by intro h; simp)
  have h2 := count_cancelMap handles Ev.closeChanOut (by intro h; simp)
  have h3 := count_cancelMap handles Ev.closeSocket (by intro h; simp)
  refine ⟨?_, ?_, ?_⟩ <;>
    simp [closeEvents, List.count_append, List.count_cons, h1, h2, h3]

theorem count_watch_zero (sys : SessionSys) {e : Ev}
    (h1 : e ≠ Ev.wgAdd 0) (h2 : e ≠ Ev.sendOut noticeOfDisconnectionMessage 0 0)
    (h3 : e ≠ Ev.wgDone 0) (h4 : e ≠ Ev.readDeadlineWatch) (h5 : e ≠ Ev.watchExit) :
    (watchTrace sys).count e = 0 := by
  unfold watchTrace
  split <;> simp [watchShutdownTrace, watchClosingTrace, List.count_cons, h1, h2, h3, h4, h5]

/-- A run count reduces to the count in the close-protocol trace for
every event no task other than the deferred `close()` can produce. -/
theorem count_sigma_closeOnly {sys : SessionSys} {wtr : List Ev} {sched : List Nat}
    {σ : List Ev} (hmerge : mergeTasks (sysTasks sys wtr) sched = some σ)
    (hws : WriterShape wtr) (e : Ev) (hl : isLoopEvB e = false)
    (hp : isProcEvB e = false) (hwsk : isWriteSockB e = false)
    (hcwd : e ≠ Ev.closeWriteDone) (hss : e ≠ Ev.shutdownSignal)
    (h1 : e ≠ Ev.wgAdd 0) (h2 : e ≠ Ev.sendOut noticeOfDisconnectionMessage 0 0)
    (h3 : e ≠ Ev.wgDone 0) (h4 : e ≠ Ev.readDeadlineWatch) (h5 : e ≠ Ev.watchExit) :
    σ.count e = (closeEvents sys.closeHandles).count e := by
  rw [count_sysTasks hmerge]
  rw [count_server_zero sys hss, count_watch_zero sys h1 h2 h3 h4 h5,
    count_writer_zero hws hwsk hcwd]
  unfold handlerTraces
  rw [sum_counts_tasks_zero sys.hres sys.msgs 0 hp]
  unfold dispatcherTrace
  rw [List.count_append, count_loop_zero sys.hres sys.msgs 0 hl]
  omega

/-- Counts of the one-shot close-protocol events in a run. -/
theorem count_sigma_closeKit {sys : SessionSys} {wtr : List Ev} {sched : List Nat}
    {σ : List Ev} (hmerge : mergeTasks (sysTasks sys wtr) sched = some σ)
    (hws : WriterShape wtr) :
    σ.count Ev.wgWait = 1 ∧ σ.count Ev.closeChanOut = 1
      ∧ σ.count Ev.closeSocket = 1 := by
  obtain ⟨hce1, hce2, hce3⟩ := count_closeEvents_kit sys.closeHandles
  refine ⟨?_, ?_, ?_⟩
  · rw [count_sigma_closeOnly hmerge hws Ev.wgWait rfl rfl rfl (by simp) (by simp)
      (by simp) (by simp) (by simp) (by simp) (by simp), hce1]
  · rw [count_sigma_closeOnly hmerge hws Ev.closeChanOut rfl rfl rfl (by simp) (by simp)
      (by simp) (by simp) (by simp) (by simp) (by simp), hce2]
  · rw [count_sigma_closeOnly hmerge hws Ev.closeSocket rfl rfl rfl (by simp) (by simp)
      (by simp) (by simp) (by simp) (by simp) (by simp), hce3]

theorem sum_map_ite_eq_countP (tids : List Nat) (f : Nat → Bool) :
    (tids.map (fun t => if f t = true then 1 else 0)).sum = tids.countP f := by
  induction tids with
  | nil => simp
  | cons a rest ih =>
    by_cases hf : f a = true
    · simp [List.countP_cons, hf, ih]
      omega
    · simp [List.countP_cons, hf, ih]

/-- Each join-counter decrement is preceded by the matching increment:
the watch task increments before it decrements, and a handler decrement
sits in a `ProcessRequestMessage` trace whose registration (its first
action) follows the increment of the dispatcher by the spawn constraint. -/
theorem add_before_done {sys : SessionSys} {wtr : List Ev} {sched : List Nat}
    {σ : List Ev} (hmerge : mergeTasks (sysTasks sys wtr) sched = some σ)
    (hws : WriterShape wtr) (hspawn : SpawnAfterAdd σ) (t : Nat)
    (ht : t ∈ sysWgTids sys) :
    ∀ (j : Nat), σ[j]? = some (Ev.wgDone t) →
      ∃ (i : Nat), i < j ∧ σ[i]? = some (Ev.wgAdd t) := by
  have hcountDone : σ.count (Ev.wgDone t) = 1 := by
    rw [count_sigma_wgDone hmerge hws]
    simp [ht]
  have handlerCase : t ∈ loopTids sys.msgs 0 →
      ∀ (j : Nat), σ[j]? = some (Ev.wgDone t) →
        ∃ (i : Nat), i < j ∧ σ[i]? = some (Ev.wgAdd t) := by
    intro htl j hj
    obtain ⟨m, hcase⟩ := proc_sub_of_mem_loopTids sys.hres sys.msgs 0 t htl
    have hprocsub : (processRequestTrace t m (sys.hres m)).Sublist σ := by
      rcases hcase with hsub | hmem
      · have hd := dispatcher_sub hmerge
        have : (dispatcherTrace sys)
            = (loopRun sys.hres sys.msgs 0).1 ++ closeEvents sys.closeHandles := rfl
        rw [this] at hd
        exact (hsub.trans (List.sublist_append_left _ _)).trans hd
      · exact handler_sub hmerge (by unfold handlerTraces; exact hmem)
    have hOcc : OccB (Ev.registerEv m.messageID t) (Ev.wgDone t) σ := by
      apply occB_of_append_sub
        (p := [Ev.registerEv m.messageID t, Ev.serveBegin m.messageID t])
        (q := ((sys.hres m).enum.map
            (fun p => Ev.sendOut (responseWriterWrap m.messageID p.2) t p.1))
          ++ [Ev.serveEnd m.messageID t, Ev.deregisterEv m.messageID t, Ev.wgDone t])
        (a := Ev.registerEv m.messageID t) (b := Ev.wgDone t)
      · exact hprocsub
      · simp
      · simp
    obtain ⟨r0, j0, hrj, hr0, hj0⟩ := hOcc
    have hjj : j = j0 := getElemQ_eq_of_count_one hcountDone hj hj0
    have hrlen : r0 < σ.length := lt_length_of_getElemQ hr0
    have hreg : isRegisterB (evAt σ r0) = true := by
      rw [evAt_of_getElemQ hr0]
      rfl
    obtain ⟨i, hir, hi⟩ := hspawn r0 hrlen hreg
    rw [evAt_of_getElemQ hr0] at hi
    simp only [registerTid] at hi
    refine ⟨i, by omega, getElemQ_of_evAt (by omega) hi⟩
  unfold sysWgTids at ht
  by_cases hb : sys.watchShutdownBranch
  · rw [if_pos hb] at ht
    rcases List.mem_cons.mp ht with rfl | htl
    · have hwsub := watch_sub hmerge
      have hw : watchTrace sys = watchShutdownTrace := by simp [watchTrace, hb]
      rw [hw] at hwsub
      have hOcc : OccB (Ev.wgAdd 0) (Ev.wgDone 0) σ := by
        apply occB_of_append_sub
          (p := [Ev.wgAdd 0, Ev.sendOut noticeOfDisconnectionMessage 0 0])
          (q := [Ev.wgDone 0, Ev.readDeadlineWatch])
          (a := Ev.wgAdd 0) (b := Ev.wgDone 0)
        · exact hwsub
        · simp
        · simp
      obtain ⟨i0, j0, hij, hi0, hj0⟩ := hOcc
      intro j hj
      have : j = j0 := getElemQ_eq_of_count_one hcountDone hj hj0
      exact ⟨i0, by omega, hi0⟩
    · exact handlerCase htl
  · rw [if_neg hb] at ht
    exact handlerCase ht

/-- The WaitGroup balance at `wg.Wait`: if the join-counter increment of
a task of the session is visible before the wait completes, its matching
decrement is visible before the wait as well. This is the genuine
`sync.WaitGroup` mechanism, drawn from the balance constraint alone. -/
theorem done_mem_of_add_mem {sys : SessionSys} {wtr : List Ev} {sched : List Nat}
    {σ : List Ev} (hmerge : mergeTasks (sysTasks sys wtr) sched = some σ)
    (hws : WriterShape wtr) (hwg : WgZeroAtWait σ) (hspawn : SpawnAfterAdd σ)
    (t : Nat) (htS : t ∈ sysWgTids sys)
    {w : Nat} (hw : σ[w]? = some Ev.wgWait)
    (haddmem : Ev.wgAdd t ∈ σ.take w) :
    ∃ (d : Nat), d < w ∧ σ[d]? = some (Ev.wgDone t) := by
  have hwlen : w < σ.length := lt_length_of_getElemQ hw
  have hcnt := hwg w hwlen (evAt_of_getElemQ hw)
  have hshapeAdd : ∀ e ∈ σ.take w, isWgAddB e = true →
      ∃ t', t' ∈ sysWgTids sys ∧ e = Ev.wgAdd t' := by
    intro e he hp
    have hmem : e ∈ σ := (List.take_sublist _ _).subset he
    cases e <;> simp [isWgAddB] at hp
    rename_i x
    refine ⟨x, ?_, rfl⟩
    by_contra hnot
    have hz : σ.count (Ev.wgAdd x) = 0 := by
      rw [count_sigma_wgAdd hmerge hws]
      simp [hnot]
    have := List.count_pos_iff.mpr hmem
    omega
  have hshapeDone : ∀ e ∈ σ.take w, isWgDoneB e = true →
      ∃ t', t' ∈ sysWgTids sys ∧ e = Ev.wgDone t' := by
    intro e he hp
    have hmem : e ∈ σ := (List.take_sublist _ _).subset he
    cases e <;> simp [isWgDoneB] at hp
    rename_i x
    refine ⟨x, ?_, rfl⟩
    by_contra hnot
    have hz : σ.count (Ev.wgDone x) = 0 := by
      rw [count_sigma_wgDone hmerge hws]
      simp [hnot]
    have := List.count_pos_iff.mpr hmem
    omega
  have hA := countP_eq_sum_tids (σ.take w) (sysWgTids sys) isWgAddB Ev.wgAdd
    hshapeAdd (fun a b h => by injection h) (sysWgTids_nodup sys) (fun t' => rfl)
  have hD := countP_eq_sum_tids (σ.take w) (sysWgTids sys) isWgDoneB Ev.wgDone
    hshapeDone (fun a b h => by injection h) (sysWgTids_nodup sys) (fun t' => rfl)
  have hindA : ∀ t' ∈ sysWgTids sys,
      (σ.take w).count (Ev.wgAdd t')
        = if (Ev.wgAdd t' ∈ σ.take w : Prop) then 1 else 0 := by
    intro t' ht'
    have hle : (σ.take w).count (Ev.wgAdd t') ≤ 1 := by
      have h1 := List.Sublist.count_le (List.take_sublist w σ) (Ev.wgAdd t')
      have h2 : σ.count (Ev.wgAdd t') = 1 := by
        rw [count_sigma_wgAdd hmerge hws]
        simp [ht']
      omega
    by_cases hm : Ev.wgAdd t' ∈ σ.take w
    · have := List.count_pos_iff.mpr hm
      simp [hm]
      omega
    · simp [hm, List.count_eq_zero.mpr hm]
  have hindD : ∀ t' ∈ sysWgTids sys,
      (σ.take w).count (Ev.wgDone t')
        = if (Ev.wgDone t' ∈ σ.take w : Prop) then 1 else 0 := by
    intro t' ht'
    have hle : (σ.take w).count (Ev.wgDone t') ≤ 1 := by
      have h1 := List.Sublist.count_le (List.take_sublist w σ) (Ev.wgDone t')
      have h2 : σ.count (Ev.wgDone t') = 1 := by
        rw [count_sigma_wgDone hmerge hws]
        simp [ht']
      omega
    by_cases hm : Ev.wgDone t' ∈ σ.take w
    · have := List.count_pos_iff.mpr hm
      simp [hm]
      omega
    · simp [hm, List.count_eq_zero.mpr hm]
  have hsumA : ((sysWgTids sys).map (fun t' => (σ.take w).count (Ev.wgAdd t'))).sum
      = (sysWgTids sys).countP (fun t' => decide (Ev.wgAdd t' ∈ σ.take w)) := by
    rw [List.map_congr_left (fun t' ht' => hindA t' ht')]
    rw [← sum_map_ite_eq_countP]
    refine congrArg List.sum (List.map_congr_left (fun t' _ => ?_))
    by_cases hm : Ev.wgAdd t' ∈ σ.take w <;> simp [hm]
  have hsumD : ((sysWgTids sys).map (fun t' => (σ.take w).count (Ev.wgDone t'))).sum
      = (sysWgTids sys).countP (fun t' => decide (Ev.wgDone t' ∈ σ.take w)) := by
    rw [List.map_congr_left (fun t' ht' => hindD t' ht')]
    rw [← sum_map_ite_eq_countP]
    refine congrArg List.sum (List.map_congr_left (fun t' _ => ?_))
    by_cases hm : Ev.wgDone t' ∈ σ.take w <;> simp [hm]
  have hPQ : (sysWgTids sys).countP (fun t' => decide (Ev.wgDone t' ∈ σ.take w))
      = (sysWgTids sys).countP (fun t' => decide (Ev.wgAdd t' ∈ σ.take w)) := by
    rw [← hsumA, ← hsumD, ← hA, ← hD, hcnt]
  have himp : ∀ t' ∈ sysWgTids sys,
      decide (Ev.wgDone t' ∈ σ.take w) = true →
        decide (Ev.wgAdd t' ∈ σ.take w) = true := by
    intro t' ht' hdec
    have hm : Ev.wgDone t' ∈ σ.take w := of_decide_eq_true hdec
    obtain ⟨j, hjw, hj⟩ := pos_of_mem_take hm
    obtain ⟨i, hij, hi⟩ := add_before_done hmerge hws hspawn t' ht' j hj
    exact decide_eq_true (mem_take_of_pos (by omega) hi)
  have hconv := imp_of_countP_eq (sysWgTids sys)
    (fun t' => decide (Ev.wgDone t' ∈ σ.take w))
    (fun t' => decide (Ev.wgAdd t' ∈ σ.take w)) himp hPQ
  have hdonemem : Ev.wgDone t ∈ σ.take w :=
    of_decide_eq_true (hconv t htS (decide_eq_true haddmem))
  obtain ⟨d, hdw, hd⟩ := pos_of_mem_take hdonemem
  exact ⟨d, hdw, hd⟩

/-- The WaitGroup balance at `wg.Wait` forces every handler of the
session to have decremented before the wait completes: the dispatch loop
performs the matching `wg.Add` in program order before it reaches the
deferred `close()`, so the increment is always visible at the wait. -/
theorem done_before_wait {sys : SessionSys} {wtr : List Ev} {sched : List Nat}
    {σ : List Ev} (hmerge : mergeTasks (sysTasks sys wtr) sched = some σ)
    (hws : WriterShape wtr) (hwg : WgZeroAtWait σ) (hspawn : SpawnAfterAdd σ)
    (t : Nat) (ht : t ∈ loopTids sys.msgs 0)
    {w : Nat} (hw : σ[w]? = some Ev.wgWait) :
    ∃ (d : Nat), d < w ∧ σ[d]? = some (Ev.wgDone t) := by
  have htS : t ∈ sysWgTids sys := by
    unfold sysWgTids
    split
    · exact List.mem_cons_of_mem _ ht
    · exact ht
  have haddmem : Ev.wgAdd t ∈ σ.take w := by
    have hloopc : (loopRun sys.hres sys.msgs 0).1.count (Ev.wgAdd t) = 1 := by
      rw [count_wgAdd_loop]
      simp [ht]
    have haddin : Ev.wgAdd t ∈ (loopRun sys.hres sys.msgs 0).1 :=
      List.count_pos_iff.mp (by omega)
    have hwaitin : Ev.wgWait ∈ closeEvents sys.closeHandles := by
      simp [closeEvents]
    have hdsub := dispatcher_sub hmerge
    have hdec : dispatcherTrace sys
        = (loopRun sys.hres sys.msgs 0).1 ++ closeEvents sys.closeHandles := rfl
    rw [hdec] at hdsub
    have hOcc : OccB (Ev.wgAdd t) Ev.wgWait σ :=
      occB_of_append_sub hdsub haddin hwaitin
    obtain ⟨i0, j0, hij, hi0, hj0⟩ := hOcc
    have hwu : σ.count Ev.wgWait = 1 := (count_sigma_closeKit hmerge hws).1
    have : j0 = w := getElemQ_eq_of_count_one hwu hj0 hw
    exact mem_take_of_pos (by omega) hi0
  exact done_mem_of_add_mem hmerge hws hwg hspawn t htS hw haddmem

/-- In every admissible run, every handler of the session releases the
join counter strictly before the Outbound Queue is closed and strictly
before the socket is closed. -/
theorem handler_done_before_close {sys : SessionSys} {σ : List Ev}
    (hadm : AdmissibleRun sys σ) {t : Nat} (ht : t ∈ loopTids sys.msgs 0) :
    OccB (Ev.wgDone t) Ev.closeChanOut σ ∧ OccB (Ev.wgDone t) Ev.closeSocket σ := by
  obtain ⟨wtr, sched, hws, hmerge, hwg, hsbc, hras, hsd, hwwd, hwdq, hspawn, hwss, hwcc⟩ :=
    hadm
  have hwaitin : Ev.wgWait ∈ closeEvents sys.closeHandles := by simp [closeEvents]
  have hdsub := dispatcher_sub hmerge
  have hdec : dispatcherTrace sys
      = (loopRun sys.hres sys.msgs 0).1 ++ closeEvents sys.closeHandles := rfl
  have hwmem : Ev.wgWait ∈ σ := by
    refine hdsub.subset ?_
    rw [hdec]
    exact List.mem_append_right _ hwaitin
  obtain ⟨w, hw⟩ := getElemQ_of_mem hwmem
  obtain ⟨d, hdw, hd⟩ := done_before_wait hmerge hws hwg hspawn t ht hw
  obtain ⟨hcw, hcc, hcs⟩ := count_sigma_closeKit hmerge hws
  have hsplit1 : dispatcherTrace sys
      = ((loopRun sys.hres sys.msgs 0).1 ++ [Ev.closeClosing, Ev.readDeadlineClose]
          ++ sys.closeHandles.map Ev.cancelCall ++ [Ev.clearRegistry, Ev.wgWait])
        ++ [Ev.closeChanOut, Ev.waitWriteDone, Ev.closeSocket, Ev.srvWgDone] := by
    simp [dispatcherTrace, closeEvents]
  have hsub2 := dispatcher_sub hmerge
  rw [hsplit1] at hsub2
  have hOcc1 : OccB Ev.wgWait Ev.closeChanOut σ :=
    occB_of_append_sub hsub2 (by simp) (by simp)
  have hOcc2 : OccB Ev.wgWait Ev.closeSocket σ :=
    occB_of_append_sub hsub2 (by simp) (by simp)
  obtain ⟨i1, j1, hij1, hi1, hj1⟩ := hOcc1
  obtain ⟨i2, j2, hij2, hi2, hj2⟩ := hOcc2
  have heq1 : i1 = w := getElemQ_eq_of_count_one hcw hi1 hw
  have heq2 : i2 = w := getElemQ_eq_of_count_one hcw hi2 hw
  exact ⟨⟨d, j1, by omega, hd, hj1⟩, ⟨d, j2, by omega, hd, hj2⟩⟩

/-! ## Claim C1: the close protocol -/

/-- C1. On any exit of the dispatch loop with the session set up (the
closing channel and Outbound Queue open, `writeDone` created), the close
protocol performs exactly, in order: emit the closing signal, force
reader wakeup, cancel every registered request and clear the registry,
wait for the handler join counter, close the Outbound Queue, wait for
the write-complete signal, close the socket, release the Server join
counter — the trace equals `closeEvents`, with the queue and the socket
each closed exactly once; and in every admissible run both closures
occur strictly after the last handler of the session released the join
counter. -/
theorem c1_close_protocol_order (st : CState)
    (h1 : st.closing = ChanSt.openChan) (h2 : st.chanOut = ChanSt.openChan)
    (h3 : st.writeDone ≠ ChanSt.nilChan) :
    closeRun st = (closeEvents (closeCancelAll st.registry).2, GoOutcome.ok,
      { closing := ChanSt.closedChan, chanOut := ChanSt.closedChan,
        writeDone := st.writeDone, registry := (closeCancelAll st.registry).1,
        socketOpen := false })
    ∧ (closeRun st).1.count Ev.closeChanOut = 1
    ∧ (closeRun st).1.count Ev.closeSocket = 1
    ∧ (∀ sys σ, AdmissibleRun sys σ → ∀ t ∈ loopTids sys.msgs 0,
        OccB (Ev.wgDone t) Ev.closeChanOut σ ∧ OccB (Ev.wgDone t) Ev.closeSocket σ) := by
  have heq : closeRun st = (closeEvents (closeCancelAll st.registry).2, GoOutcome.ok,
      { closing := ChanSt.closedChan, chanOut := ChanSt.closedChan,
        writeDone := st.writeDone, registry := (closeCancelAll st.registry).1,
        socketOpen := false }) := by
    rcases st with ⟨cl, co, wd, reg, so⟩
    simp only at h1 h2 h3
    subst h1
    subst h2
    cases wd with
    | nilChan => exact absurd rfl h3
    | openChan => simp [closeRun, closeChan, closeEvents]
    | closedChan => simp [closeRun, closeChan, closeEvents]
  obtain ⟨hk1, hk2, hk3⟩ := count_closeEvents_kit (closeCancelAll st.registry).2
  refine ⟨heq, ?_, ?_, ?_⟩
  · rw [heq]
    exact hk2
  · rw [heq]
    exact hk3
  · intro sys σ hadm t ht
    exact handler_done_before_close hadm ht

/-- Concrete session state used by the C1 witness. -/
def c1WitnessState : CState :=
  { closing := ChanSt.openChan, chanOut := ChanSt.openChan,
    writeDone := ChanSt.openChan, registry := some [(1, 2)], socketOpen := true }

/-- C1 witness: the close protocol at a concrete session state with one
registered request. -/
theorem c1_close_protocol_order_witness :
    closeRun c1WitnessState
      = (closeEvents (closeCancelAll (some [(1, 2)])).2, GoOutcome.ok,
        { closing := ChanSt.closedChan, chanOut := ChanSt.closedChan,
          writeDone := ChanSt.openChan, registry := (closeCancelAll (some [(1, 2)])).1,
          socketOpen := false })
    ∧ (closeRun c1WitnessState).1.count Ev.closeChanOut = 1
    ∧ (closeRun c1WitnessState).1.count Ev.closeSocket = 1
    ∧ (∀ sys σ, AdmissibleRun sys σ → ∀ t ∈ loopTids sys.msgs 0,
        OccB (Ev.wgDone t) Ev.closeChanOut σ ∧ OccB (Ev.wgDone t) Ev.closeSocket σ) :=
  c1_close_protocol_order c1WitnessState rfl rfl (by decide)

/-! ## Claim C5: StartTLS runs inline -/

/-- The dispatch loop always opens an iteration with its dispatch-begin
step. -/
theorem loopRun_head (hres : LDAPMessage → List ProtocolOp) (x : LDAPMessage)
    (r : List LDAPMessage) (j : Nat) :
    ∃ tl, (loopRun hres (x :: r) j).1 = Ev.dispatchBegin j :: tl := by
  cases hk : msgKind x <;> simp [loopRun, hk]

/-- C5. A StartTLS ExtendedRequest is processed inline: the dispatcher
increments the join counter and runs the whole `ProcessRequestMessage`
trace on its own task (no handler task is spawned for it), and the
return of the handler precedes the dispatch of the next message, both in the
dispatcher trace and in every admissible run of such a session. -/
theorem c5_starttls_inline (hres : LDAPMessage → List ProtocolOp)
    (m m2 : LDAPMessage) (rest2 : List LDAPMessage) (k : Nat)
    (hm : m.protocolOp = ProtocolOp.extendedRequest NoticeOfStartTLS) :
    loopRun hres (m :: m2 :: rest2) k
      = (Ev.dispatchBegin k :: Ev.wgAdd (k + 1)
          :: (processRequestTrace (k + 1) m (hres m)
            ++ (loopRun hres (m2 :: rest2) (k + 1)).1),
        (loopRun hres (m2 :: rest2) (k + 1)).2)
    ∧ OccB (Ev.serveEnd m.messageID (k + 1)) (Ev.dispatchBegin (k + 1))
        (loopRun hres (m :: m2 :: rest2) k).1
    ∧ (∀ sys σ, AdmissibleRun sys σ → sys.msgs = m :: m2 :: rest2 →
        sys.hres = hres →
        OccB (Ev.serveEnd m.messageID 1) (Ev.dispatchBegin 1) σ) := by
  have hkind : msgKind m = MsgKind.inlineK := by simp [msgKind, hm]
  have heq : loopRun hres (m :: m2 :: rest2) k
      = (Ev.dispatchBegin k :: Ev.wgAdd (k + 1)
          :: (processRequestTrace (k + 1) m (hres m)
            ++ (loopRun hres (m2 :: rest2) (k + 1)).1),
        (loopRun hres (m2 :: rest2) (k + 1)).2) := by
    simp [loopRun, hkind]
  have hdecomp : ∀ j : Nat, (loopRun hres (m :: m2 :: rest2) j).1
      = ((Ev.dispatchBegin j :: Ev.wgAdd (j + 1)
          :: processRequestTrace (j + 1) m (hres m))
        ++ (loopRun hres (m2 :: rest2) (j + 1)).1) := by
    intro j
    simp [loopRun, hkind]
  have hoccLoop : ∀ j : Nat,
      OccB (Ev.serveEnd m.messageID (j + 1)) (Ev.dispatchBegin (j + 1))
        (loopRun hres (m :: m2 :: rest2) j).1 := by
    intro j
    obtain ⟨tl, htl⟩ := loopRun_head hres m2 rest2 (j + 1)
    have hsub : ((Ev.dispatchBegin j :: Ev.wgAdd (j + 1)
          :: processRequestTrace (j + 1) m (hres m))
        ++ (loopRun hres (m2 :: rest2) (j + 1)).1).Sublist
        (loopRun hres (m :: m2 :: rest2) j).1 := by
      rw [hdecomp j]
    refine occB_of_append_sub hsub ?_ ?_
    · simp [processRequestTrace]
    · rw [htl]
      exact List.mem_cons_self _ _
  refine ⟨heq, hoccLoop k, ?_⟩
  intro sys σ hadm hmsgs hhres
  obtain ⟨wtr, sched, hws, hmerge, _⟩ := hadm
  have hdsub := dispatcher_sub hmerge
  have hdec : dispatcherTrace sys
      = (loopRun sys.hres sys.msgs 0).1 ++ closeEvents sys.closeHandles := rfl
  rw [hdec, hmsgs, hhres] at hdsub
  obtain ⟨tl, htl⟩ := loopRun_head hres m2 rest2 1
  have hsub : ((Ev.dispatchBegin 0 :: Ev.wgAdd 1
        :: processRequestTrace 1 m (hres m))
      ++ (loopRun hres (m2 :: rest2) 1).1).Sublist σ := by
    have h0 := hdecomp 0
    refine List.Sublist.trans ?_ ((List.sublist_append_left _ _).trans hdsub)
    rw [← h0]
  refine occB_of_append_sub hsub ?_ ?_
  · simp [processRequestTrace]
  · rw [htl]
    exact List.mem_cons_self _ _

/-- Handler returning no responses, used by concrete scenarios. -/
def noResponses : LDAPMessage → List ProtocolOp := fun _ => []

/-- A concrete StartTLS request. -/
def tlsMsg : LDAPMessage :=
  { messageID := 1, protocolOp := ProtocolOp.extendedRequest NoticeOfStartTLS }

/-- A concrete UnbindRequest. -/
def unbindMsg : LDAPMessage :=
  { messageID := 2, protocolOp := ProtocolOp.unbindRequest }

/-- C5 witness at a concrete session: a StartTLS request followed by an
Unbind. -/
theorem c5_starttls_inline_witness :
    loopRun noResponses (tlsMsg :: unbindMsg :: []) 0
      = (Ev.dispatchBegin 0 :: Ev.wgAdd 1
          :: (processRequestTrace 1 tlsMsg (noResponses tlsMsg)
            ++ (loopRun noResponses (unbindMsg :: []) 1).1),
        (loopRun noResponses (unbindMsg :: []) 1).2)
    ∧ OccB (Ev.serveEnd tlsMsg.messageID 1) (Ev.dispatchBegin 1)
        (loopRun noResponses (tlsMsg :: unbindMsg :: []) 0).1
    ∧ (∀ sys σ, AdmissibleRun sys σ → sys.msgs = tlsMsg :: unbindMsg :: [] →
        sys.hres = noResponses →
        OccB (Ev.serveEnd tlsMsg.messageID 1) (Ev.dispatchBegin 1) σ) :=
  c5_starttls_inline noResponses tlsMsg unbindMsg [] 0 rfl

/-! ## Claim C4: Unbind -/

/-- A concrete request dispatched to a handler goroutine. -/
def rawReqMsg : LDAPMessage := { messageID := 1, protocolOp := ProtocolOp.rawOp [] }

/-- Handler that writes one response, used by concrete scenarios. -/
def oneResp : LDAPMessage → List ProtocolOp := fun _ => [ProtocolOp.bindResponse 0]

/-- The scenario of the C4 counterexample: one spawned request, then an
Unbind; the spawned handler is still running when the Unbind arrives. -/
def c4Sys : SessionSys :=
  { msgs := [rawReqMsg, unbindMsg], hres := oneResp, closeHandles := [],
    shutdownInvoked := false, watchShutdownBranch := false }

/-- The message the slow handler enqueues. -/
def wMsg : LDAPMessage := responseWriterWrap 1 (ProtocolOp.bindResponse 0)

/-- A run of `c4Sys` in which the handler of the first request enqueues
its response after the Unbind was received; the writer drains it to the
socket before the close protocol closes the socket. -/
def c4Run : List Ev :=
  [Ev.dispatchBegin 0, Ev.wgAdd 1, Ev.dispatchBegin 1, Ev.unbindReceived,
    Ev.registerEv 1 1, Ev.serveBegin 1 1, Ev.sendOut wMsg 1 0, Ev.writeSock wMsg 1 0,
    Ev.serveEnd 1 1, Ev.deregisterEv 1 1, Ev.wgDone 1,
    Ev.closeClosing, Ev.readDeadlineClose, Ev.clearRegistry, Ev.wgWait, Ev.closeChanOut,
    Ev.closeWriteDone, Ev.waitWriteDone, Ev.closeSocket, Ev.srvWgDone, Ev.watchExit]

/-- Writer trace of the run `c4Run`. -/
def c4Writer : List Ev := [Ev.writeSock wMsg 1 0, Ev.closeWriteDone]

/-- Schedule producing `c4Run` (task 0 server, 1 dispatcher, 2 watch,
3 writer, 4 handler). -/
def c4Sched : List Nat :=
  [1, 1, 1, 1, 4, 4, 4, 3, 4, 4, 4, 1, 1, 1, 1, 1, 3, 1, 1, 1, 2]

/-- C4 counterexample: it is not true that after an Unbind is received
no further message is written on the socket of the session — a response
of a still-running handler, enqueued after the Unbind, is drained to the
socket during the close protocol. -/
theorem c4_counterexample :
    ¬ (∀ (sys : SessionSys) (σ : List Ev), AdmissibleRun sys σ →
      ∀ (j : Nat), j < σ.length → evAt σ j = Ev.unbindReceived →
        ∀ (i : Nat), i < σ.length → isWriteSockB (evAt σ i) = true → i < j) := by
  intro hclaim
  have hadm : AdmissibleRun c4Sys c4Run :=
    ⟨c4Writer, c4Sched, ⟨[Ev.writeSock wMsg 1 0], rfl, by decide⟩, by decide,
      by unfold WgZeroAtWait; decide, by unfold SendsBeforeQueueClose; decide,
      by unfold RecvAfterSend; decide, by unfold SendsDrained; decide,
      by unfold WaitAfterWriteDoneClosed; decide,
      by unfold WriteDoneAfterQueueClose; decide, by unfold SpawnAfterAdd; decide,
      by unfold WatchShutdownAfterSignal; decide,
      by unfold WatchClosingAfterClosing; decide⟩
  have := hclaim c4Sys c4Run hadm 3 (by decide) (by decide) 7 (by decide) (by decide)
  omega

theorem closeEvents_no_sends (handles : List Nat) :
    (closeEvents handles).countP isSendOutB = 0
      ∧ (closeEvents handles).countP isWriteSockB = 0 := by
  constructor <;>
  · rw [List.countP_eq_zero]
    intro e he
    simp only [closeEvents, List.mem_append, List.mem_cons, List.mem_map,
      List.not_mem_nil, or_false] at he
    rcases he with ((rfl | rfl) | ⟨h, _, rfl⟩) | (rfl | rfl | rfl | rfl | rfl | rfl) <;>
      simp [isSendOutB, isWriteSockB]

/-- C4 as amended. On an UnbindRequest the dispatch loop exits at once:
it never responds, registers nothing, spawns nothing, leaves the
registry and queue untouched, and ignores every later message; the
remaining actions of the dispatch goroutine (the close protocol)
enqueue and write nothing themselves. (Responses already issued by
still-running handlers may however still be written before the socket
closes.) -/
theorem c4_unbind_exit_no_response (hres : LDAPMessage → List ProtocolOp)
    (m : LDAPMessage) (rest : List LDAPMessage) (k : Nat)
    (hm : m.protocolOp = ProtocolOp.unbindRequest) :
    loopRun hres (m :: rest) k = ([Ev.dispatchBegin k, Ev.unbindReceived], [])
    ∧ (∀ handles, (closeEvents handles).countP isSendOutB = 0
        ∧ (closeEvents handles).countP isWriteSockB = 0)
    ∧ (∀ hnew reg, dispatchStep hres hnew reg m
        = { registry := reg, cancelled := none, responses := [], wgAdds := 0,
            spawnsTask := false, ranInline := false,
            action := DispatchAction.exitLoop }) := by
  have hkind : msgKind m = MsgKind.unbindK := by simp [msgKind, hm]
  refine ⟨by simp [loopRun, hkind], closeEvents_no_sends, ?_⟩
  intro hnew reg
  simp [dispatchStep, hm]

/-- C4 amended-claim witness at a concrete Unbind. -/
theorem c4_unbind_exit_no_response_witness :
    loopRun noResponses (unbindMsg :: []) 0
        = ([Ev.dispatchBegin 0, Ev.unbindReceived], [])
    ∧ (∀ handles, (closeEvents handles).countP isSendOutB = 0
        ∧ (closeEvents handles).countP isWriteSockB = 0)
    ∧ (∀ hnew reg, dispatchStep noResponses hnew reg unbindMsg
        = { registry := reg, cancelled := none, responses := [], wgAdds := 0,
            spawnsTask := false, ranInline := false,
            action := DispatchAction.exitLoop }) :=
  c4_unbind_exit_no_response noResponses unbindMsg [] 0 rfl

/-! ## Claim C2: the Notice of Disconnection -/

/-- An enqueue of the Notice of Disconnection (any task, any sequence
number). -/
def isNoticeSendB : Ev → Bool
  | Ev.sendOut m _ _ => m == noticeOfDisconnectionMessage
  | _ => false

theorem isSendOutB_of_notice {e : Ev} (h : isNoticeSendB e = true) :
    isSendOutB e = true := by
  cases e <;> simp [isNoticeSendB, isSendOutB] at h ⊢

/-- A handler response wrap never equals the Notice (its message id is
the id of the request, which is nonzero; the Notice carries id 0). -/
theorem wrap_ne_notice {m : LDAPMessage} (hm : m.messageID ≠ 0) (po : ProtocolOp) :
    responseWriterWrap m.messageID po ≠ noticeOfDisconnectionMessage := by
  intro hc
  have hid0 : (responseWriterWrap m.messageID po).messageID = 0 := by
    rw [hc]
    rfl
  simp [responseWriterWrap, SetMessageID] at hid0
  exact hm hid0

theorem countP_notice_processTrace (tid : Nat) (m : LDAPMessage)
    (resp : List ProtocolOp) (hm : m.messageID ≠ 0) :
    (processRequestTrace tid m resp).countP isNoticeSendB = 0 := by
  rw [List.countP_eq_zero]
  intro e he
  simp only [processRequestTrace, List.mem_append, List.mem_cons, List.mem_map,
    List.not_mem_nil, or_false] at he
  rcases he with ((rfl | rfl) | ⟨p, _, rfl⟩) | (rfl | rfl | rfl) <;>
    simp [isNoticeSendB]
  exact wrap_ne_notice hm p.2

theorem countP_notice_loop (hres : LDAPMessage → List ProtocolOp) :
    ∀ msgs k, (∀ m ∈ msgs, m.messageID ≠ 0) →
      (loopRun hres msgs k).1.countP isNoticeSendB = 0
      ∧ ((loopRun hres msgs k).2.map (List.countP isNoticeSendB)).sum = 0 := by
  intro msgs
  induction msgs with
  | nil => intro k hid; simp [loopRun]
  | cons m rest ih =>
    intro k hid
    have hm0 : m.messageID ≠ 0 := hid m (List.mem_cons_self m rest)
    have hrest : ∀ m2 ∈ rest, m2.messageID ≠ 0 :=
      fun m2 hm2 => hid m2 (List.mem_cons_of_mem m hm2)
    obtain ⟨ih1, ih2⟩ := ih (k + 1) hrest
    have hproc := countP_notice_processTrace (k + 1) m (hres m) hm0
    cases hop : msgKind m with
    | abandonK t0 =>
      simp [loopRun, hop, List.countP_cons, isNoticeSendB, ih1, ih2]
    | unbindK =>
      simp [loopRun, hop, List.countP_cons, isNoticeSendB]
    | inlineK =>
      simp [loopRun, hop, List.countP_cons, List.countP_append, isNoticeSendB,
        ih1, ih2, hproc]
    | spawnK =>
      simp [loopRun, hop, List.countP_cons, List.countP_append, isNoticeSendB,
        ih1, ih2, hproc]

theorem countP_notice_closeEvents (handles : List Nat) :
    (closeEvents handles).countP isNoticeSendB = 0 := by
  have h := (closeEvents_no_sends handles).1
  have hle := countP_le_of_imp (closeEvents handles) isNoticeSendB isSendOutB
    (fun e _ => isSendOutB_of_notice)
  omega

/-- In a run of a session whose watch takes the shutdown branch and
whose client uses nonzero message ids, exactly one Notice of
Disconnection is enqueued. -/
theorem countP_sigma_notice {sys : SessionSys} {wtr : List Ev} {sched : List Nat}
    {σ : List Ev} (hmerge : mergeTasks (sysTasks sys wtr) sched = some σ)
    (hws : WriterShape wtr) (hb : sys.watchShutdownBranch = true)
    (hid : ∀ m ∈ sys.msgs, m.messageID ≠ 0) :
    σ.countP isNoticeSendB = 1 := by
  have hmc := mergeTasks_countP hmerge isNoticeSendB
  simp only [sysTasks, List.map_cons, List.sum_cons] at hmc
  obtain ⟨hl1, hl2⟩ := countP_notice_loop sys.hres sys.msgs 0 hid
  have hdisp : (dispatcherTrace sys).countP isNoticeSendB = 0 := by
    unfold dispatcherTrace
    rw [List.countP_append, hl1, countP_notice_closeEvents]
  have hsrv : (serverTrace sys).countP isNoticeSendB = 0 := by
    unfold serverTrace
    split <;> simp [isNoticeSendB]
  have hwatch : (watchTrace sys).countP isNoticeSendB = 1 := by
    unfold watchTrace
    rw [if_pos hb]
    simp [watchShutdownTrace, List.countP_cons, isNoticeSendB]
  have hwtr : wtr.countP isNoticeSendB = 0 := by
    obtain ⟨ws, rfl, hall⟩ := hws
    rw [List.countP_append, List.countP_eq_zero.mpr, List.countP_eq_zero.mpr]
    · intro e he
      simp only [List.mem_singleton] at he
      subst he
      simp [isNoticeSendB]
    · intro e he
      have := hall e he
      intro hno
      have := isSendOutB_of_notice hno
      cases e <;> simp_all [isWriteSockB, isSendOutB]
  have htasks : ((handlerTraces sys).map (List.countP isNoticeSendB)).sum = 0 := by
    unfold handlerTraces
    exact hl2
  rw [hsrv, hdisp, hwatch, hwtr] at hmc
  omega

theorem count_sendOut_tid0_processTrace (tid : Nat) (htid : tid ≠ 0)
    (mm : LDAPMessage) (resp : List ProtocolOp) (m : LDAPMessage) (s : Nat) :
    (processRequestTrace tid mm resp).count (Ev.sendOut m 0 s) = 0 := by
  rw [List.count_eq_zero]
  intro hmem
  simp only [processRequestTrace, List.mem_append, List.mem_cons, List.mem_map,
    List.not_mem_nil, or_false] at hmem
  rcases hmem with ((h | h) | ⟨p, _, h⟩) | (h | h | h) <;> simp_all

theorem count_sendOut00_loop (hres : LDAPMessage → List ProtocolOp) :
    ∀ msgs k (m : LDAPMessage) (s : Nat),
      (loopRun hres msgs k).1.count (Ev.sendOut m 0 s) = 0
      ∧ ((loopRun hres msgs k).2.map (List.count (Ev.sendOut m 0 s))).sum = 0 := by
  intro msgs
  induction msgs with
  | nil => intro k m s; simp [loopRun]
  | cons m0 rest ih =>
    intro k m s
    obtain ⟨ih1, ih2⟩ := ih (k + 1) m s
    have hproc := count_sendOut_tid0_processTrace (k + 1) (Nat.succ_ne_zero k)
      m0 (hres m0) m s
    cases hop : msgKind m0 with
    | abandonK t0 =>
      simp [loopRun, hop, List.count_cons, ih1, ih2]
    | unbindK =>
      simp [loopRun, hop, List.count_cons]
    | inlineK =>
      simp [loopRun, hop, List.count_cons, List.count_append, ih1, ih2, hproc]
    | spawnK =>
      simp [loopRun, hop, List.count_cons, List.count_append, ih1, ih2, hproc]

theorem count_closeEvents_zero (handles : List Nat) (e : Ev)
    (h1 : e ≠ Ev.closeClosing) (h2 : e ≠ Ev.readDeadlineClose)
    (h3 : ∀ h, e ≠ Ev.cancelCall h) (h4 : e ≠ Ev.clearRegistry)
    (h5 : e ≠ Ev.wgWait) (h6 : e ≠ Ev.closeChanOut) (h7 : e ≠ Ev.waitWriteDone)
    (h8 : e ≠ Ev.closeSocket) (h9 : e ≠ Ev.srvWgDone) :
    (closeEvents handles).count e = 0 := by
  have hc := count_cancelMap handles e h3
  simp [closeEvents, List.count_append, List.count_cons, hc, h1, h2, h4, h5, h6,
    h7, h8, h9]

/-- The Notice enqueue of the watch task occurs exactly once in a run
whose watch takes the shutdown branch. -/
theorem count_sigma_noticeSend {sys : SessionSys} {wtr : List Ev} {sched : List Nat}
    {σ : List Ev} (hmerge : mergeTasks (sysTasks sys wtr) sched = some σ)
    (hws : WriterShape wtr) (hb : sys.watchShutdownBranch = true) :
    σ.count (Ev.sendOut noticeOfDisconnectionMessage 0 0) = 1 := by
  rw [count_sysTasks hmerge]
  rw [count_server_zero sys (by simp),
    count_writer_zero (e := Ev.sendOut noticeOfDisconnectionMessage 0 0) hws rfl
      (by simp)]
  have hwatch : (watchTrace sys).count (Ev.sendOut noticeOfDisconnectionMessage 0 0)
      = 1 := by
    unfold watchTrace
    rw [if_pos hb]
    simp [watchShutdownTrace, List.count_cons]
  obtain ⟨hl1, hl2⟩ :=
    count_sendOut00_loop sys.hres sys.msgs 0 noticeOfDisconnectionMessage 0
  have hdisp : (dispatcherTrace sys).count
      (Ev.sendOut noticeOfDisconnectionMessage 0 0) = 0 := by
    unfold dispatcherTrace
    rw [List.count_append, hl1, count_closeEvents_zero sys.closeHandles _ (by simp)
      (by simp) (by intro h; simp) (by simp) (by simp) (by simp) (by simp) (by simp)
      (by simp)]
  have htasks : ((handlerTraces sys).map
      (List.count (Ev.sendOut noticeOfDisconnectionMessage 0 0))).sum = 0 := by
    unfold handlerTraces
    exact hl2
  rw [hdisp, hwatch, htasks]

/-- Socket writes come only from the writer task. -/
theorem count_sigma_writeSock {sys : SessionSys} {wtr : List Ev} {sched : List Nat}
    {σ : List Ev} (hmerge : mergeTasks (sysTasks sys wtr) sched = some σ)
    (m : LDAPMessage) (t s : Nat) :
    σ.count (Ev.writeSock m t s) = wtr.count (Ev.writeSock m t s) := by
  rw [count_sysTasks hmerge]
  rw [count_server_zero sys (by simp),
    count_watch_zero sys (by simp) (by simp) (by simp) (by simp) (by simp)]
  have hdisp : (dispatcherTrace sys).count (Ev.writeSock m t s) = 0 := by
    unfold dispatcherTrace
    rw [List.count_append, count_loop_zero (e := Ev.writeSock m t s) sys.hres sys.msgs 0 rfl,
      count_closeEvents_zero sys.closeHandles _ (by simp) (by simp)
        (by intro h; simp) (by simp) (by simp) (by simp) (by simp) (by simp)
        (by simp)]
  have htasks : ((handlerTraces sys).map (List.count (Ev.writeSock m t s))).sum
      = 0 := by
    unfold handlerTraces
    exact sum_counts_tasks_zero sys.hres sys.msgs 0 rfl
  rw [hdisp, htasks]
  omega

/-- The writer closes `writeDone` exactly once per run. -/
theorem count_sigma_closeWriteDone {sys : SessionSys} {wtr : List Ev}
    {sched : List Nat} {σ : List Ev}
    (hmerge : mergeTasks (sysTasks sys wtr) sched = some σ)
    (hws : WriterShape wtr) :
    σ.count Ev.closeWriteDone = 1 := by
  rw [count_sysTasks hmerge]
  rw [count_server_zero sys (by simp),
    count_watch_zero sys (by simp) (by simp) (by simp) (by simp) (by simp)]
  have hdisp : (dispatcherTrace sys).count Ev.closeWriteDone = 0 := by
    unfold dispatcherTrace
    rw [List.count_append, count_loop_zero (e := Ev.closeWriteDone) sys.hres sys.msgs 0 rfl,
      count_closeEvents_zero sys.closeHandles _ (by simp) (by simp)
        (by intro h; simp) (by simp) (by simp) (by simp) (by simp) (by simp)
        (by simp)]
  have htasks : ((handlerTraces sys).map (List.count Ev.closeWriteDone)).sum = 0 := by
    unfold handlerTraces
    exact sum_counts_tasks_zero sys.hres sys.msgs 0 rfl
  have hwtr : wtr.count Ev.closeWriteDone = 1 := by
    obtain ⟨ws, rfl, hall⟩ := hws
    rw [List.count_append, count_eq_zero_of_shape (e := Ev.closeWriteDone) hall rfl]
    simp
  rw [hdisp, htasks, hwtr]

/-- The scenario of the C2 counterexample: `Shutdown()` is invoked while
the session is live, but the client disconnects concurrently and the
shutdown watch, scheduled only after the dispatcher entered `close()`,
takes the closing branch of its select: no Notice is ever enqueued. -/
def c2Sys : SessionSys :=
  { msgs := [], hres := noResponses, closeHandles := [],
    shutdownInvoked := true, watchShutdownBranch := false }

/-- A run of `c2Sys` with no Notice of Disconnection. -/
def c2Run : List Ev :=
  [Ev.shutdownSignal, Ev.closeClosing, Ev.readDeadlineClose, Ev.clearRegistry,
    Ev.wgWait, Ev.closeChanOut, Ev.closeWriteDone, Ev.waitWriteDone,
    Ev.closeSocket, Ev.srvWgDone, Ev.watchExit]

/-- Schedule producing `c2Run`. -/
def c2Sched : List Nat := [0, 1, 1, 1, 1, 1, 3, 1, 1, 1, 2]

/-- C2 counterexample: it is not true that every session that is live
when shutdown is invoked (the shutdown signal precedes the closing
signal) gets exactly one Notice of Disconnection enqueued — the watch
select may fire on the closing signal instead, emitting nothing. -/
theorem c2_counterexample :
    ¬ (∀ (sys : SessionSys) (σ : List Ev), AdmissibleRun sys σ →
      sys.shutdownInvoked = true → OccB Ev.shutdownSignal Ev.closeClosing σ →
      σ.countP isNoticeSendB = 1) := by
  intro hclaim
  have hadm : AdmissibleRun c2Sys c2Run :=
    ⟨[Ev.closeWriteDone], c2Sched, ⟨[], rfl, by decide⟩, by decide,
      by unfold WgZeroAtWait; decide, by unfold SendsBeforeQueueClose; decide,
      by unfold RecvAfterSend; decide, by unfold SendsDrained; decide,
      by unfold WaitAfterWriteDoneClosed; decide,
      by unfold WriteDoneAfterQueueClose; decide, by unfold SpawnAfterAdd; decide,
      by unfold WatchShutdownAfterSignal; decide,
      by unfold WatchClosingAfterClosing; decide⟩
  have hlive : OccB Ev.shutdownSignal Ev.closeClosing c2Run :=
    ⟨0, 1, by omega, rfl, rfl⟩
  have h1 := hclaim c2Sys c2Run hadm rfl hlive
  have h0 : c2Run.countP isNoticeSendB = 0 := by decide
  omega

/-- C2 as amended. For every session whose shutdown watch observes the
shutdown signal (takes the shutdown branch of its select), whose
join-counter increment `wg.Add(1)` lands before the `wg.Wait` of the
close protocol completes, and whose client uses nonzero message ids, in
every complete interleaving constrained only by the synchronisation the
code genuinely provides (no panic-freedom assumed): the Notice of
Disconnection is the ExtendedResponse with result code 53, diagnostic
message "server is about to stop" and the Notice-of-Disconnection OID,
wrapped with message id 0; exactly one such Notice is enqueued on the
Outbound Queue; the enqueue precedes the close of the queue - derived
from the WaitGroup balance, the program order of the watch and of the
close protocol, never from `SendsBeforeQueueClose`; and the socket write
of the Notice precedes the close of the socket. -/
theorem c2_notice_before_close (sys : SessionSys) (σ : List Ev)
    (hadm : WeakAdmissibleRun sys σ) (hb : sys.watchShutdownBranch = true)
    (hadd : OccB (Ev.wgAdd 0) Ev.wgWait σ)
    (hid : ∀ m ∈ sys.msgs, m.messageID ≠ 0) :
    noticeOfDisconnectionMessage
      = { messageID := 0,
          protocolOp := ProtocolOp.extendedResponse LDAPResultUnwillingToPerform
            "server is about to stop" NoticeOfDisconnection }
    ∧ σ.countP isNoticeSendB = 1
    ∧ OccB (Ev.sendOut noticeOfDisconnectionMessage 0 0) Ev.closeChanOut σ
    ∧ OccB (Ev.writeSock noticeOfDisconnectionMessage 0 0) Ev.closeSocket σ := by
  obtain ⟨wtr, sched, hws, hmerge, hwg, hras, hesd, hwwd, hwdq, hspawn,
    hwss, hwcc⟩ := hadm
  obtain ⟨hcw, hcc, hcs⟩ := count_sigma_closeKit hmerge hws
  have hwsub := watch_sub hmerge
  have hwt : watchTrace sys = watchShutdownTrace := by simp [watchTrace, hb]
  rw [hwt] at hwsub
  have hOccSD : OccB (Ev.sendOut noticeOfDisconnectionMessage 0 0)
      (Ev.wgDone 0) σ := by
    apply occB_of_append_sub
      (p := [Ev.wgAdd 0, Ev.sendOut noticeOfDisconnectionMessage 0 0])
      (q := [Ev.wgDone 0, Ev.readDeadlineWatch])
      (a := Ev.sendOut noticeOfDisconnectionMessage 0 0) (b := Ev.wgDone 0)
    · exact hwsub
    · simp
    · simp
  obtain ⟨ia, iw, hiaw, hia, hiw⟩ := hadd
  have haddmem : Ev.wgAdd 0 ∈ σ.take iw := mem_take_of_pos hiaw hia
  have htS0 : (0 : Nat) ∈ sysWgTids sys := by
    unfold sysWgTids
    rw [if_pos hb]
    exact List.mem_cons_self _ _
  obtain ⟨d, hdw, hd⟩ := done_mem_of_add_mem hmerge hws hwg hspawn 0 htS0 hiw haddmem
  have hdc : σ.count (Ev.wgDone 0) = 1 := by
    rw [count_sigma_wgDone hmerge hws]
    simp [htS0]
  obtain ⟨s0, d0, hsd0, hs0, hd0⟩ := hOccSD
  have hdd : d0 = d := getElemQ_eq_of_count_one hdc hd0 hd
  have hsplit1 : dispatcherTrace sys
      = ((loopRun sys.hres sys.msgs 0).1 ++ [Ev.closeClosing, Ev.readDeadlineClose]
          ++ sys.closeHandles.map Ev.cancelCall ++ [Ev.clearRegistry, Ev.wgWait])
        ++ [Ev.closeChanOut, Ev.waitWriteDone, Ev.closeSocket, Ev.srvWgDone] := by
    simp [dispatcherTrace, closeEvents]
  have hdsub1 := dispatcher_sub hmerge
  rw [hsplit1] at hdsub1
  have hOccWC : OccB Ev.wgWait Ev.closeChanOut σ :=
    occB_of_append_sub hdsub1 (by simp) (by simp)
  obtain ⟨w1, c1, hwc1, hw1, hc1⟩ := hOccWC
  have hw1e : w1 = iw := getElemQ_eq_of_count_one hcw hw1 hiw
  have hOcc3 : OccB (Ev.sendOut noticeOfDisconnectionMessage 0 0)
      Ev.closeChanOut σ :=
    ⟨s0, c1, by omega, hs0, hc1⟩
  have hslen : s0 < σ.length := lt_length_of_getElemQ hs0
  have hguard : ∀ c, c < σ.length → evAt σ c = Ev.closeChanOut → s0 < c := by
    intro c hclen hcev
    have hcq : σ[c]? = some Ev.closeChanOut := getElemQ_of_evAt hclen hcev
    have : c = c1 := getElemQ_eq_of_count_one hcc hcq hc1
    omega
  have hOcc4 : OccB (Ev.writeSock noticeOfDisconnectionMessage 0 0)
      Ev.closeSocket σ := by
    obtain ⟨jw, hjwlen, hjw⟩ := hesd s0 hslen
      (by rw [evAt_of_getElemQ hs0]; rfl) hguard
    rw [evAt_of_getElemQ hs0] at hjw
    simp only [sendToWrite] at hjw
    have hjwq : σ[jw]? = some (Ev.writeSock noticeOfDisconnectionMessage 0 0) :=
      getElemQ_of_evAt hjwlen hjw
    have hwsc := count_sigma_writeSock hmerge noticeOfDisconnectionMessage 0 0
    have hwmem : Ev.writeSock noticeOfDisconnectionMessage 0 0 ∈ wtr := by
      have h1 : 0 < σ.count (Ev.writeSock noticeOfDisconnectionMessage 0 0) :=
        List.count_pos_iff.mpr (mem_of_getElemQ hjwq)
      rw [hwsc] at h1
      exact List.count_pos_iff.mp h1
    obtain ⟨ws, hwtr_eq, hall⟩ := hws
    subst hwtr_eq
    have hwmem2 : Ev.writeSock noticeOfDisconnectionMessage 0 0 ∈ ws := by
      rcases List.mem_append.mp hwmem with h | h
      · exact h
      · simp at h
    have hwsub := writer_sub hmerge
    have hOccW : OccB (Ev.writeSock noticeOfDisconnectionMessage 0 0)
        Ev.closeWriteDone σ :=
      occB_of_append_sub hwsub hwmem2 (by simp)
    obtain ⟨a0, b0, hab, ha0, hb0⟩ := hOccW
    have hcwd1 : σ.count Ev.closeWriteDone = 1 :=
      count_sigma_closeWriteDone hmerge ⟨ws, rfl, hall⟩
    have hsplit : dispatcherTrace sys
        = ((loopRun sys.hres sys.msgs 0).1
            ++ [Ev.closeClosing, Ev.readDeadlineClose]
            ++ sys.closeHandles.map Ev.cancelCall
            ++ [Ev.clearRegistry, Ev.wgWait, Ev.closeChanOut, Ev.waitWriteDone])
          ++ [Ev.closeSocket, Ev.srvWgDone] := by
      simp [dispatcherTrace, closeEvents]
    have hdsub := dispatcher_sub hmerge
    rw [hsplit] at hdsub
    have hOccV : OccB Ev.waitWriteDone Ev.closeSocket σ :=
      occB_of_append_sub hdsub (by simp) (by simp)
    obtain ⟨v0, cs0, hvcs, hv0, hcs0⟩ := hOccV
    have hvlen := lt_length_of_getElemQ hv0
    obtain ⟨u, huv, hu⟩ := hwwd v0 hvlen (evAt_of_getElemQ hv0)
    have huq : σ[u]? = some Ev.closeWriteDone := getElemQ_of_evAt (by omega) hu
    have hub : u = b0 := getElemQ_eq_of_count_one hcwd1 huq hb0
    exact ⟨a0, cs0, by omega, ha0, hcs0⟩
  exact ⟨rfl, countP_sigma_notice hmerge hws hb hid, hOcc3, hOcc4⟩

/-- Witness scenario for C2: shutdown invoked, watch takes the shutdown
branch. -/
def c2wSys : SessionSys :=
  { msgs := [], hres := noResponses, closeHandles := [],
    shutdownInvoked := true, watchShutdownBranch := true }

/-- Witness run for C2: the Notice is enqueued, drained to the socket,
then the session closes. -/
def c2wRun : List Ev :=
  [Ev.shutdownSignal, Ev.wgAdd 0, Ev.sendOut noticeOfDisconnectionMessage 0 0,
    Ev.writeSock noticeOfDisconnectionMessage 0 0, Ev.wgDone 0,
    Ev.readDeadlineWatch, Ev.closeClosing, Ev.readDeadlineClose, Ev.clearRegistry,
    Ev.wgWait, Ev.closeChanOut, Ev.closeWriteDone, Ev.waitWriteDone,
    Ev.closeSocket, Ev.srvWgDone]

/-- Schedule producing `c2wRun`. -/
def c2wSched : List Nat := [0, 2, 2, 3, 2, 2, 1, 1, 1, 1, 1, 3, 1, 1, 1]

/-- C2 amended-claim witness at the concrete shutdown run. -/
theorem c2_notice_before_close_witness :
    noticeOfDisconnectionMessage
      = { messageID := 0,
          protocolOp := ProtocolOp.extendedResponse LDAPResultUnwillingToPerform
            "server is about to stop" NoticeOfDisconnection }
    ∧ c2wRun.countP isNoticeSendB = 1
    ∧ OccB (Ev.sendOut noticeOfDisconnectionMessage 0 0) Ev.closeChanOut c2wRun
    ∧ OccB (Ev.writeSock noticeOfDisconnectionMessage 0 0) Ev.closeSocket c2wRun :=
  c2_notice_before_close c2wSys c2wRun
    ⟨[Ev.writeSock noticeOfDisconnectionMessage 0 0, Ev.closeWriteDone], c2wSched,
      ⟨[Ev.writeSock noticeOfDisconnectionMessage 0 0], rfl, by decide⟩, by decide,
      by unfold WgZeroAtWait; decide,
      by unfold RecvAfterSend; decide, by unfold EarlySendsDrained; decide,
      by unfold WaitAfterWriteDoneClosed; decide,
      by unfold WriteDoneAfterQueueClose; decide, by unfold SpawnAfterAdd; decide,
      by unfold WatchShutdownAfterSignal; decide,
      by unfold WatchClosingAfterClosing; decide⟩
    rfl ⟨1, 9, by omega, rfl, rfl⟩ (by intro m hm; simp [c2wSys] at hm)

/-! ## Claim C8: the registry invariant -/

/-- The session operations that can touch the Request Registry, plus
representative operations that cannot (enqueueing a response, the Unbind
exit, a writer flush). -/
inductive RegOp where
  | register (id : Int) (handle : Nat)
  | complete (id : Int)
  | abandon (id : Int)
  | closeClear
  | enqueueResponse (m : LDAPMessage)
  | unbindExit
  | writerFlush

/-- Effect of each operation on the registry, as the code implements
it: only `ProcessRequestMessage` registration inserts; only Abandon
handling, the close protocol and the completion of
`ProcessRequestMessage` remove. -/
def applyRegOp (reg : Registry) : RegOp → Registry
  | RegOp.register id h => registerCancel reg id h
  | RegOp.complete id => deregisterOnReturn reg id
  | RegOp.abandon id => (cancelMessageID reg id).1
  | RegOp.closeClear => (closeCancelAll reg).1
  | RegOp.enqueueResponse _ => reg
  | RegOp.unbindExit => reg
  | RegOp.writerFlush => reg

/-- The claim side, following the words of the claim: the set of message
ids of handler tasks that have executed the registration step and have
not yet been deregistered — registration adds the id, and an id is
deregistered exactly when Abandon handling, the close protocol, or the
completion of a handler with that id removes it. -/
def claimRegistered (ids : List Int) : RegOp → List Int
  | RegOp.register id _ => id :: ids.filter (fun x => x != id)
  | RegOp.complete id => ids.filter (fun x => x != id)
  | RegOp.abandon id => ids.filter (fun x => x != id)
  | RegOp.closeClear => []
  | _ => ids

theorem mapErase_keys (m : RegMap) (k : Int) :
    (mapErase m k).map (fun e => e.1)
      = (m.map (fun e => e.1)).filter (fun x => x != k) := by
  induction m with
  | nil => rfl
  | cons e rest ih =>
    by_cases he : e.1 = k <;> simp [mapErase, he, ih]

theorem mapLookup_none_not_mem (m : RegMap) (k : Int)
    (h : mapLookup m k = none) : k ∉ m.map (fun e => e.1) := by
  induction m with
  | nil => simp
  | cons e rest ih =>
    by_cases he : e.1 = k
    · simp [mapLookup, he] at h
    · simp only [mapLookup, he, if_false] at h
      simp only [List.map_cons, List.mem_cons]
      rintro (rfl | hm)
      · exact he rfl
      · exact ih h hm

/-- One step of the refinement: the registered key set evolves exactly
as the claim describes. -/
theorem regKeys_applyRegOp (reg : Registry) (op : RegOp) :
    regKeys (applyRegOp reg op) = claimRegistered (regKeys reg) op := by
  cases op with
  | register id h =>
    cases reg with
    | none => simp [applyRegOp, registerCancel, regKeys, mapInsert, mapErase,
        claimRegistered]
    | some m => simp [applyRegOp, registerCancel, regKeys, mapInsert,
        claimRegistered, mapErase_keys]
  | complete id =>
    cases reg with
    | none => simp [applyRegOp, deregisterOnReturn, regKeys, claimRegistered]
    | some m => simp [applyRegOp, deregisterOnReturn, regKeys, claimRegistered,
        mapErase_keys]
  | abandon id =>
    cases reg with
    | none => simp [applyRegOp, cancelMessageID, regLookup, regKeys, claimRegistered]
    | some m =>
      rcases hl : mapLookup m id with _ | hh
      · have hnm := mapLookup_none_not_mem m id hl
        have hself : (m.map (fun e => e.1)).filter (fun x => x != id)
            = m.map (fun e => e.1) := by
          refine List.filter_eq_self.mpr (fun a ha => ?_)
          have : a ≠ id := fun hc => hnm (hc ▸ ha)
          simp [this]
        simp [applyRegOp, cancelMessageID, regLookup, hl, regKeys,
          claimRegistered, hself]
      · simp [applyRegOp, cancelMessageID, regLookup, hl, deregisterOnReturn,
          regKeys, claimRegistered, mapErase_keys]
  | closeClear =>
    cases reg <;> simp [applyRegOp, closeCancelAll, regKeys, claimRegistered]
  | enqueueResponse m => rfl
  | unbindExit => rfl
  | writerFlush => rfl

theorem regKeys_foldl (ops : List RegOp) :
    ∀ reg, regKeys (ops.foldl applyRegOp reg)
      = ops.foldl claimRegistered (regKeys reg) := by
  induction ops with
  | nil => intro reg; rfl
  | cons op rest ih =>
    intro reg
    simp only [List.foldl_cons]
    rw [ih (applyRegOp reg op), regKeys_applyRegOp]

/-- C8. Starting from the nil map, after any sequence of session
operations the registered message ids are exactly the ids of handler
tasks that have registered and not yet been deregistered (the claim-side
account `claimRegistered`); the first registration creates the map
lazily; within one `ProcessRequestMessage` the registration precedes the
handler invocation, which precedes the deregistration; and the
operations other than registration, Abandon handling, completion and
the close protocol leave the registry untouched. -/
theorem c8_registry_refinement :
    (∀ ops : List RegOp, regKeys (ops.foldl applyRegOp none)
        = ops.foldl claimRegistered [])
    ∧ (∀ (id : Int) (h : Nat), registerCancel none id h = some [(id, h)])
    ∧ (∀ (tid : Nat) (m : LDAPMessage) (resp : List ProtocolOp),
        OccB (Ev.registerEv m.messageID tid) (Ev.serveBegin m.messageID tid)
          (processRequestTrace tid m resp)
        ∧ OccB (Ev.serveBegin m.messageID tid) (Ev.serveEnd m.messageID tid)
          (processRequestTrace tid m resp)
        ∧ OccB (Ev.serveEnd m.messageID tid) (Ev.deregisterEv m.messageID tid)
          (processRequestTrace tid m resp))
    ∧ (∀ (reg : Registry) (m : LDAPMessage),
        applyRegOp reg (RegOp.enqueueResponse m) = reg
        ∧ applyRegOp reg RegOp.unbindExit = reg
        ∧ applyRegOp reg RegOp.writerFlush = reg) := by
  refine ⟨fun ops => regKeys_foldl ops none, fun id h => rfl, ?_,
    fun reg m => ⟨rfl, rfl, rfl⟩⟩
  intro tid m resp
  refine ⟨?_, ?_, ?_⟩
  · refine occB_of_append_sub (p := [Ev.registerEv m.messageID tid])
      (q := Ev.serveBegin m.messageID tid
        :: (resp.enum.map
            (fun p => Ev.sendOut (responseWriterWrap m.messageID p.2) tid p.1)
          ++ [Ev.serveEnd m.messageID tid, Ev.deregisterEv m.messageID tid,
              Ev.wgDone tid])) ?_ (by simp) (by simp)
    have he1 : processRequestTrace tid m resp
        = [Ev.registerEv m.messageID tid]
          ++ (Ev.serveBegin m.messageID tid
            :: (resp.enum.map
                (fun p => Ev.sendOut (responseWriterWrap m.messageID p.2) tid p.1)
              ++ [Ev.serveEnd m.messageID tid, Ev.deregisterEv m.messageID tid,
                  Ev.wgDone tid])) := by
      simp [processRequestTrace]
    rw [← he1]
  · refine occB_of_append_sub
      (p := [Ev.registerEv m.messageID tid, Ev.serveBegin m.messageID tid])
      (q := resp.enum.map
          (fun p => Ev.sendOut (responseWriterWrap m.messageID p.2) tid p.1)
        ++ [Ev.serveEnd m.messageID tid, Ev.deregisterEv m.messageID tid,
            Ev.wgDone tid]) ?_ (by simp) (by simp)
    exact List.Sublist.refl _
  · refine occB_of_append_sub
      (p := [Ev.registerEv m.messageID tid, Ev.serveBegin m.messageID tid]
        ++ resp.enum.map
          (fun p => Ev.sendOut (responseWriterWrap m.messageID p.2) tid p.1)
        ++ [Ev.serveEnd m.messageID tid])
      (q := [Ev.deregisterEv m.messageID tid, Ev.wgDone tid]) ?_ (by simp) (by simp)
    have he3 : processRequestTrace tid m resp
        = ([Ev.registerEv m.messageID tid, Ev.serveBegin m.messageID tid]
            ++ resp.enum.map
              (fun p => Ev.sendOut (responseWriterWrap m.messageID p.2) tid p.1)
            ++ [Ev.serveEnd m.messageID tid])
          ++ [Ev.deregisterEv m.messageID tid, Ev.wgDone tid] := by
      simp [processRequestTrace]
    rw [← he3]

/-! ## Claim C9: the round-trip law

Modelled from the spec: the ASN.1/BER codec for LDAP messages is an
external library (goldap), out of scope of the sources; the spec
describes the wire format as a BER-encoded
SEQUENCE { messageID INTEGER, protocolOp CHOICE } with
tag-length-value framing, the length in short form (< 128) or long form
(a count byte then base-256 digits). The codec below follows that
description. -/

/-- Modelled from the spec: base-256 big-endian digits of a natural
number (one byte minimum). -/
def encNat (n : Nat) : List Nat :=
  if h : n < 256 then [n] else encNat (n / 256) ++ [n % 256]
termination_by n
decreasing_by exact Nat.div_lt_self (by omega) (by omega)

/-- Modelled from the spec: big-endian base-256 value of digits. -/
def decNat (bs : List Nat) : Nat :=
  bs.foldl (fun a b => a * 256 + b) 0

theorem decNat_append (bs : List Nat) (b : Nat) :
    decNat (bs ++ [b]) = decNat bs * 256 + b := by
  unfold decNat
  rw [List.foldl_append]
  rfl

theorem decNat_encNat (n : Nat) : decNat (encNat n) = n := by
  induction n using Nat.strong_induction_on with
  | _ n ih =>
    rw [encNat]
    split
    · simp [decNat]
    · rename_i h
      rw [decNat_append, ih (n / 256) (Nat.div_lt_self (by omega) (by omega))]
      omega

theorem encNat_length_pos (n : Nat) : 1 ≤ (encNat n).length := by
  rw [encNat]
  split <;> simp

theorem encNat_length_le : ∀ (k : Nat) (n : Nat), n < 256 ^ (k + 1) →
    (encNat n).length ≤ k + 1 := by
  intro k
  induction k with
  | zero =>
    intro n h
    rw [encNat]
    split
    · simp
    · rename_i h2
      simp [pow_succ] at h
      omega
  | succ k2 ih =>
    intro n h
    rw [encNat]
    split
    · simp
    · rename_i h2
      rw [List.length_append]
      have hdiv : n / 256 < 256 ^ (k2 + 1) := by
        rw [Nat.div_lt_iff_lt_mul (by omega : 0 < 256)]
        calc n < 256 ^ (k2 + 1 + 1) := h
        _ = 256 ^ (k2 + 1) * 256 := by rw [pow_succ]
      have := ih (n / 256) hdiv
      simp
      omega

theorem lt_256pow127 {n : Nat} (h : n < 2 ^ 64) : n < 256 ^ 127 := by
  have h2 : (2 : Nat) ^ 64 ≤ 256 ^ 127 := by
    have h256 : (256 : Nat) = 2 ^ 8 := by norm_num
    rw [h256, ← pow_mul]
    exact Nat.pow_le_pow_right (by norm_num) (by norm_num)
  omega

theorem encNat_len_le127 {n : Nat} (h : n < 2 ^ 64) : (encNat n).length ≤ 127 := by
  have := encNat_length_le 126 n (by
    have := lt_256pow127 h
    exact this)
  omega

/-- Modelled from the spec: a BER length field, short form below 128,
long form otherwise (a byte carrying 128 plus the digit count, then the
digits). -/
def encLen (n : Nat) : List Nat :=
  if n < 128 then [n] else (128 + (encNat n).length) :: encNat n

/-- Modelled from the spec: parse a BER length field, returning the
length and the remainder. -/
def parseLen : List Nat → Option (Nat × List Nat)
  | [] => none
  | b :: r =>
    if b < 128 then some (b, r)
    else if h : b - 128 ≤ r.length then
      some (decNat (r.take (b - 128)), r.drop (b - 128))
    else none

theorem parseLen_encLen (n : Nat) (r : List Nat)
    (hb : (encNat n).length ≤ 127) :
    parseLen (encLen n ++ r) = some (n, r) := by
  by_cases h : n < 128
  · simp [encLen, h, parseLen]
  · have hlen1 := encNat_length_pos n
    simp only [encLen, h, if_false, List.cons_append]
    have hbig : ¬ (128 + (encNat n).length < 128) := by omega
    have hk : 128 + (encNat n).length - 128 = (encNat n).length := by omega
    simp only [parseLen, hbig, if_false, hk]
    have hle : (encNat n).length ≤ (encNat n ++ r).length := by simp
    rw [dif_pos hle, List.take_left, List.drop_left, decNat_encNat]

/-- Modelled from the spec: a length-prefixed chunk. -/
def lenChunk (bs : List Nat) : List Nat :=
  encLen bs.length ++ bs

/-- Modelled from the spec: parse a length-prefixed chunk. -/
def parseChunk (l : List Nat) : Option (List Nat × List Nat) :=
  match parseLen l with
  | none => none
  | some (n, r) => if h : n ≤ r.length then some (r.take n, r.drop n) else none

theorem parseChunk_lenChunk (bs r : List Nat)
    (hb : (encNat bs.length).length ≤ 127) :
    parseChunk (lenChunk bs ++ r) = some (bs, r) := by
  unfold lenChunk parseChunk
  rw [List.append_assoc, parseLen_encLen bs.length (bs ++ r) hb]
  have hle : bs.length ≤ (bs ++ r).length := by simp
  simp only [dif_pos hle]
  rw [List.take_left, List.drop_left]

/-- Modelled from the spec: an OCTET STRING field, the code points of
the string as a length-prefixed chunk. -/
def encStr (s : String) : List Nat :=
  lenChunk (s.data.map Char.toNat)

/-- Modelled from the spec: decode an OCTET STRING payload. -/
def decStr (bs : List Nat) : String :=
  (bs.map Char.ofNat).asString

theorem decStr_encStr_payload (s : String) :
    decStr (s.data.map Char.toNat) = s := by
  unfold decStr
  rw [List.map_map]
  have hmap : s.data.map (Char.ofNat ∘ Char.toNat) = s.data := by
    conv_rhs => rw [← List.map_id s.data]
    apply List.map_congr_left
    intro c hc
    exact Char.ofNat_toNat c
  rw [hmap]
  cases s
  rfl

/-- Modelled from the spec: an INTEGER field, a sign byte then the
base-256 digits of the magnitude. -/
def encInt (i : Int) : List Nat :=
  (if i < 0 then 1 else 0) :: encNat i.natAbs

/-- Modelled from the spec: decode an INTEGER field. -/
def decInt : List Nat → Int
  | [] => 0
  | sgn :: rest => if sgn = 1 then -(decNat rest : Int) else (decNat rest : Int)

theorem decInt_encInt (i : Int) : decInt (encInt i) = i := by
  unfold encInt decInt
  by_cases h : i < 0
  · simp [h, decNat_encNat, abs_of_neg h]
  · simp [h, decNat_encNat, abs_of_nonneg (by omega : (0 : Int) ≤ i)]

/-- Modelled from the spec: the BER application tag of a protocol op. -/
def opTag : ProtocolOp → Nat
  | ProtocolOp.abandonRequest _ => 80
  | ProtocolOp.unbindRequest => 66
  | ProtocolOp.extendedRequest _ => 119
  | ProtocolOp.extendedResponse _ _ _ => 120
  | ProtocolOp.bindResponse _ => 97
  | ProtocolOp.searchResultEntry _ => 100
  | ProtocolOp.rawOp _ => 96

/-- Modelled from the spec: the body bytes of a protocol op. -/
def encOpBody : ProtocolOp → List Nat
  | ProtocolOp.abandonRequest t => encInt t
  | ProtocolOp.unbindRequest => []
  | ProtocolOp.extendedRequest name => encStr name
  | ProtocolOp.extendedResponse code diag rname =>
      lenChunk (encNat code) ++ encStr diag ++ encStr rname
  | ProtocolOp.bindResponse code => encNat code
  | ProtocolOp.searchResultEntry dn => encStr dn
  | ProtocolOp.rawOp payload => payload

/-- Modelled from the spec: decode a protocol op from its tag and body. -/
def decOpBody (tag : Nat) (body : List Nat) : Option ProtocolOp :=
  if tag = 80 then some (ProtocolOp.abandonRequest (decInt body))
  else if tag = 66 then
    if body = [] then some ProtocolOp.unbindRequest else none
  else if tag = 119 then
    match parseChunk body with
    | some (bs, r) =>
        if r = [] then some (ProtocolOp.extendedRequest (decStr bs)) else none
    | none => none
  else if tag = 120 then
    match parseChunk body with
    | some (cbs, r1) =>
      match parseChunk r1 with
      | some (dbs, r2) =>
        match parseChunk r2 with
        | some (nbs, r3) =>
            if r3 = [] then
              some (ProtocolOp.extendedResponse (decNat cbs) (decStr dbs) (decStr nbs))
            else none
        | none => none
      | none => none
    | none => none
  else if tag = 97 then some (ProtocolOp.bindResponse (decNat body))
  else if tag = 100 then
    match parseChunk body with
    | some (bs, r) =>
        if r = [] then some (ProtocolOp.searchResultEntry (decStr bs)) else none
    | none => none
  else if tag = 96 then some (ProtocolOp.rawOp body)
  else none

/-- Modelled from the spec: wire sizes within the machine bounds the Go
implementation guarantees (string and slice lengths fit an int, result
codes and message ids fit 64 bits). -/
def opSizeOk : ProtocolOp → Prop
  | ProtocolOp.abandonRequest t => t.natAbs < 2 ^ 63
  | ProtocolOp.unbindRequest => True
  | ProtocolOp.extendedRequest name => name.length < 2 ^ 32
  | ProtocolOp.extendedResponse code diag rname =>
      code < 2 ^ 63 ∧ diag.length < 2 ^ 32 ∧ rname.length < 2 ^ 32
  | ProtocolOp.bindResponse code => code < 2 ^ 63
  | ProtocolOp.searchResultEntry dn => dn.length < 2 ^ 32
  | ProtocolOp.rawOp payload => payload.length < 2 ^ 32

/-- Modelled from the spec: encode a protocol op as tag, length, body. -/
def encodeOp (po : ProtocolOp) : List Nat :=
  opTag po :: lenChunk (encOpBody po)

/-- Modelled from the spec: encode the SEQUENCE of message id and op. -/
def encodeMsg (m : LDAPMessage) : List Nat :=
  48 :: lenChunk (2 :: lenChunk (encInt m.messageID) ++ encodeOp m.protocolOp)

/-- Modelled from the spec: decode a complete message, rejecting
trailing bytes. -/
def decodeMsg (bs : List Nat) : Option LDAPMessage :=
  match bs with
  | t :: rest =>
    if t = 48 then
      match parseChunk rest with
      | some (body, r0) =>
        if r0 = [] then
          match body with
          | b0 :: r1 =>
            if b0 = 2 then
              match parseChunk r1 with
              | some (ibs, r2) =>
                match r2 with
                | tag :: r3 =>
                  match parseChunk r3 with
                  | some (obs, r4) =>
                      if r4 = [] then
                        match decOpBody tag obs with
                        | some po => some { messageID := decInt ibs, protocolOp := po }
                        | none => none
                      else none
                  | none => none
                | [] => none
              | none => none
            else none
          | [] => none
        else none
      | none => none
    else none
  | [] => none

theorem encLen_length_le {n : Nat} (h : (encNat n).length ≤ 127) :
    (encLen n).length ≤ 128 := by
  unfold encLen
  split
  · simp
  · simp
    omega

theorem lenChunk_length (bs : List Nat) (h : bs.length < 2 ^ 64) :
    (lenChunk bs).length ≤ 128 + bs.length := by
  unfold lenChunk
  rw [List.length_append]
  have := encLen_length_le (encNat_len_le127 h)
  omega

theorem encStr_length (s : String) (h : s.length < 2 ^ 32) :
    (encStr s).length ≤ 128 + s.length := by
  unfold encStr
  have hlen : (s.data.map Char.toNat).length = s.length := by
    rw [List.length_map]
    rfl
  have := lenChunk_length (s.data.map Char.toNat) (by rw [hlen]; omega)
  rw [hlen] at this
  exact this

theorem encNat_small_length {n : Nat} (h : n < 2 ^ 63) :
    (encNat n).length ≤ 8 := by
  have : n < 256 ^ (7 + 1) := by
    have : (2 : Nat) ^ 63 ≤ 256 ^ 8 := by
      have h256 : (256 : Nat) = 2 ^ 8 := by norm_num
      rw [h256, ← pow_mul]
      exact Nat.pow_le_pow_right (by norm_num) (by norm_num)
    omega
  exact encNat_length_le 7 n this

theorem encOpBody_length (po : ProtocolOp) (h : opSizeOk po) :
    (encOpBody po).length < 2 ^ 40 := by
  cases po with
  | abandonRequest t =>
    have := encNat_small_length (h : t.natAbs < 2 ^ 63)
    simp [encOpBody, encInt]
    omega
  | unbindRequest => simp [encOpBody]
  | extendedRequest name =>
    have := encStr_length name (h : name.length < 2 ^ 32)
    have h2 : name.length < 2 ^ 32 := h
    simp [encOpBody]
    omega
  | extendedResponse code diag rname =>
    obtain ⟨h1, h2, h3⟩ := h
    have hc := encNat_small_length h1
    have hchunk := lenChunk_length (encNat code) (by omega)
    have hd := encStr_length diag h2
    have hr := encStr_length rname h3
    simp [encOpBody]
    omega
  | bindResponse code =>
    have := encNat_small_length (h : code < 2 ^ 63)
    simp [encOpBody]
    omega
  | searchResultEntry dn =>
    have := encStr_length dn (h : dn.length < 2 ^ 32)
    have h2 : dn.length < 2 ^ 32 := h
    simp [encOpBody]
    omega
  | rawOp payload =>
    have h2 : payload.length < 2 ^ 32 := h
    simp [encOpBody]
    omega

theorem parseChunk_lenChunk_small (bs r : List Nat) (h : bs.length < 2 ^ 64) :
    parseChunk (lenChunk bs ++ r) = some (bs, r) :=
  parseChunk_lenChunk bs r (encNat_len_le127 h)

theorem parseChunk_lenChunk_nil (bs : List Nat) (h : bs.length < 2 ^ 64) :
    parseChunk (lenChunk bs) = some (bs, []) := by
  have := parseChunk_lenChunk_small bs [] h
  rwa [List.append_nil] at this

theorem strBytes_length (s : String) : (s.data.map Char.toNat).length = s.length := by
  rw [List.length_map]
  rfl

theorem decOpBody_encOpBody (po : ProtocolOp) (h : opSizeOk po) :
    decOpBody (opTag po) (encOpBody po) = some po := by
  cases po with
  | abandonRequest t =>
    simp [opTag, encOpBody, decOpBody, decInt_encInt]
  | unbindRequest =>
    simp [opTag, encOpBody, decOpBody]
  | extendedRequest name =>
    have h2 : name.length < 2 ^ 32 := h
    have hlen : (name.data.map Char.toNat).length < 2 ^ 64 := by
      rw [strBytes_length]
      omega
    have hp := parseChunk_lenChunk_nil _ hlen
    simp [opTag, encOpBody, decOpBody, encStr, hp, decStr_encStr_payload]
  | extendedResponse code diag rname =>
    obtain ⟨h1, h2, h3⟩ := h
    have hc : (encNat code).length < 2 ^ 64 := by
      have := encNat_small_length h1
      omega
    have hd : (diag.data.map Char.toNat).length < 2 ^ 64 := by
      rw [strBytes_length]
      omega
    have hr : (rname.data.map Char.toNat).length < 2 ^ 64 := by
      rw [strBytes_length]
      omega
    have hp1 : parseChunk (lenChunk (encNat code) ++ (encStr diag ++ encStr rname))
        = some (encNat code, encStr diag ++ encStr rname) :=
      parseChunk_lenChunk_small _ _ hc
    have hp2 : parseChunk (encStr diag ++ encStr rname)
        = some (diag.data.map Char.toNat, encStr rname) := by
      unfold encStr
      exact parseChunk_lenChunk_small _ _ hd
    have hp3 : parseChunk (encStr rname) = some (rname.data.map Char.toNat, []) := by
      unfold encStr
      exact parseChunk_lenChunk_nil _ hr
    simp [opTag, encOpBody, decOpBody, List.append_assoc, hp1, hp2, hp3,
      decNat_encNat, decStr_encStr_payload]
  | bindResponse code =>
    simp [opTag, encOpBody, decOpBody, decNat_encNat]
  | searchResultEntry dn =>
    have h2 : dn.length < 2 ^ 32 := h
    have hlen : (dn.data.map Char.toNat).length < 2 ^ 64 := by
      rw [strBytes_length]
      omega
    have hp := parseChunk_lenChunk_nil _ hlen
    simp [opTag, encOpBody, decOpBody, encStr, hp, decStr_encStr_payload]
  | rawOp payload =>
    simp [opTag, encOpBody, decOpBody]

theorem decodeMsg_encodeMsg (m : LDAPMessage)
    (hN : m.messageID.natAbs < 2 ^ 63) (hpo : opSizeOk m.protocolOp) :
    decodeMsg (encodeMsg m) = some m := by
  have hid : (encInt m.messageID).length < 2 ^ 64 := by
    have := encNat_small_length hN
    simp [encInt]
    omega
  have hbody : (encOpBody m.protocolOp).length < 2 ^ 40 :=
    encOpBody_length _ hpo
  have hop : parseChunk (lenChunk (encOpBody m.protocolOp))
      = some (encOpBody m.protocolOp, []) :=
    parseChunk_lenChunk_nil _ (by omega)
  have hidp : parseChunk (lenChunk (encInt m.messageID)
        ++ (opTag m.protocolOp :: lenChunk (encOpBody m.protocolOp)))
      = some (encInt m.messageID,
          opTag m.protocolOp :: lenChunk (encOpBody m.protocolOp)) :=
    parseChunk_lenChunk_small _ _ hid
  have houter : (2 :: (lenChunk (encInt m.messageID)
        ++ (opTag m.protocolOp :: lenChunk (encOpBody m.protocolOp)))).length
      < 2 ^ 64 := by
    have h0 : (encInt m.messageID).length ≤ 9 := by
      have := encNat_small_length hN
      simp [encInt]
      omega
    have h1 := lenChunk_length (encInt m.messageID) hid
    have h2 := lenChunk_length (encOpBody m.protocolOp) (by omega)
    simp
    omega
  have hout : parseChunk (lenChunk (2 :: (lenChunk (encInt m.messageID)
        ++ (opTag m.protocolOp :: lenChunk (encOpBody m.protocolOp)))))
      = some (2 :: (lenChunk (encInt m.messageID)
          ++ (opTag m.protocolOp :: lenChunk (encOpBody m.protocolOp))), []) :=
    parseChunk_lenChunk_nil _ houter
  simp [decodeMsg, encodeMsg, List.cons_append, hout, hidp, encodeOp, hop,
    decOpBody_encOpBody m.protocolOp hpo, decInt_encInt]

/-- C9: for every protocol op P and message id N (within the machine
bounds the Go implementation guarantees: the id magnitude fits 63 bits
and lengths fit the Go int), the write path of the response writer wraps
P as an LDAP message stamped with message id N, and encoding then
decoding that message yields messageID = N and protocolOp = P
(round-trip law). -/
theorem c9_write_roundtrip (po : ProtocolOp) (N : Int)
    (hN : N.natAbs < 2 ^ 63) (hpo : opSizeOk po) :
    responseWriterWrap N po = { messageID := N, protocolOp := po }
    ∧ decodeMsg (encodeMsg (responseWriterWrap N po))
        = some { messageID := N, protocolOp := po } := by
  have hwrap : responseWriterWrap N po = { messageID := N, protocolOp := po } := rfl
  refine ⟨hwrap, ?_⟩
  rw [hwrap]
  exact decodeMsg_encodeMsg { messageID := N, protocolOp := po } hN hpo

/-- The message used to witness the round-trip law at a concrete input. -/
def c9Msg : LDAPMessage :=
  { messageID := 7,
    protocolOp := ProtocolOp.extendedResponse 53 "server is about to stop"
      "1.3.6.1.4.1.1466.20036" }

theorem c9_write_roundtrip_witness :
    (7 : Int).natAbs < 2 ^ 63
    ∧ opSizeOk c9Msg.protocolOp
    ∧ responseWriterWrap 7 c9Msg.protocolOp = c9Msg
    ∧ decodeMsg (encodeMsg (responseWriterWrap 7 c9Msg.protocolOp)) = some c9Msg := by
  have h1 : (7 : Int).natAbs < 2 ^ 63 := by norm_num
  have h2 : opSizeOk c9Msg.protocolOp := by
    refine ⟨by norm_num, ?_, ?_⟩ <;> decide
  have h3 := c9_write_roundtrip c9Msg.protocolOp 7 h1 h2
  exact ⟨h1, h2, h3.1, h3.2⟩

end LdapServer
